import Mathlib

/-!
Verification of the Chaty RAG backend (Python, FastAPI) against its
natural-language specification.  The relevant modules are shallowly
embedded: pure computations become Lean functions, stateful code becomes
explicit state passing, calls into external collaborators (OpenAI client,
Chroma vector store, BM25 retriever, hashlib, pypdf) become oracle
parameters or per-call outcome fields, and fallible code returns `Except`.

Embedded modules:
  * `app/sessions.py`      — `SessionStore`
  * `app/rag/ingest.py`    — `ingest_documents` and helpers
  * `app/rag/chain.py`     — `_retrieve_documents`, `stream_chat_answer`
  * `app/main.py`          — the `/chat` SSE event stream composition
-/

/-! ## Error model

The Python code distinguishes the exceptions raised by the OpenAI client:
`AuthenticationError`, `APIStatusError` (which carries `status_code`), and
any other exception, which may or may not expose a `status_code` attribute
(read via `getattr(exc, "status_code", None)`). -/

inductive PyError where
  | authenticationError
  | apiStatusError (statusCode : Nat)
  | otherError (statusCode : Option Nat)
deriving DecidableEq, Repr

/-- `_is_embedding_auth_error` (ingest.py lines 70–76; chain.py lines 46–52
define the identical function): `AuthenticationError` is an auth error,
`APIStatusError` is one iff its status code is 401 or 403, and any other
exception is one iff its `status_code` attribute (if any) is 401 or 403. -/
def isEmbeddingAuthError : PyError → Bool
  | .authenticationError => true
  | .apiStatusError s => s == 401 || s == 403
  | .otherError (some s) => s == 401 || s == 403
  | .otherError none => false

/-! ## Session store (`app/sessions.py`)

`SessionStore` keeps a `defaultdict(list)` of messages per session id,
guarded by a lock.  The lock serializes whole `append_turn` and
`get_messages` calls, so this sequential model is exact for any
interleaving of complete calls. -/

inductive Message where
  | human (content : String)
  | ai (content : String)
deriving DecidableEq, Repr

/-- Python list slice `l[-n:]` for a natural `n`: the last
`min n (length l)` elements — except that `n = 0` denotes `l[0:] = l`
(`-0` is `0` in Python). -/
def pySliceLast (n : Nat) (l : List α) : List α :=
  if n = 0 then l else l.drop (l.length - n)

structure SessionStore where
  maxMessages : Nat
  messages : String → List Message

/-- `SessionStore.__init__` with `max_messages: int = 10`; the module-level
singleton `session_store = SessionStore()` uses the default. -/
def SessionStore.init (maxMessages : Nat := 10) : SessionStore :=
  ⟨maxMessages, fun _ => []⟩

/-- `SessionStore.get_messages`: a snapshot copy of the session's list. -/
def SessionStore.getMessages (st : SessionStore) (sessionId : String) : List Message :=
  st.messages sessionId

/-- `SessionStore.append_turn`: append a `HumanMessage` then an
`AIMessage`, then trim via
`self._messages[session_id] = self._messages[session_id][-self._max_messages:]`. -/
def SessionStore.appendTurn (st : SessionStore) (sessionId userMessage assistantMessage : String) :
    SessionStore :=
  { st with
    messages := fun s =>
      if s = sessionId then
        pySliceLast st.maxMessages
          (st.messages sessionId ++ [Message.human userMessage, Message.ai assistantMessage])
      else st.messages s }

/-- Replay a list of `append_turn` calls, each given as
`(session_id, user_message, assistant_message)`. -/
def replayTurns (turns : List (String × String × String)) (st : SessionStore) : SessionStore :=
  turns.foldl (fun acc t => acc.appendTurn t.1 t.2.1 t.2.2) st

/-- The messages a list of `append_turn` calls contributes to one session,
in call order: a user message then an assistant message per call. -/
def sessionLog : List (String × String × String) → String → List Message
  | [], _ => []
  | t :: ts, sessionId =>
      (if t.1 = sessionId then [Message.human t.2.1, Message.ai t.2.2] else []) ++
        sessionLog ts sessionId

theorem pySliceLast_append_pySliceLast (n : Nat) (l m : List α) :
    pySliceLast n (pySliceLast n l ++ m) = pySliceLast n (l ++ m) := by
  rcases Nat.eq_zero_or_pos n with h0 | hpos
  · simp [pySliceLast, h0]
  · have hn : ¬ n = 0 := by omega
    simp only [pySliceLast, hn, if_false]
    rcases le_or_lt l.length n with hle | hlt
    · have h1 : l.length - n = 0 := by omega
      simp [h1]
    · have hs : (l.drop (l.length - n)).length = n := by
        simp; omega
      rw [List.drop_append_eq_append_drop, List.drop_append_eq_append_drop]
      have h2 : (l.drop (l.length - n) ++ m).length - n = m.length := by
        simp [hs]
      have h3 : (l ++ m).length - n = (l.length - n) + m.length := by
        simp; omega
      rw [h2, h3, List.drop_drop]
      have h5 : m.length - (l.drop (l.length - n)).length = m.length - n := by rw [hs]
      have h6 : l.length - n + m.length - l.length = m.length - n := by omega
      rw [h5, h6]

theorem replayTurns_getMessages (sessionId : String) (turns : List (String × String × String)) :
    ∀ (st : SessionStore) (L : List Message),
      st.getMessages sessionId = pySliceLast st.maxMessages L →
      (replayTurns turns st).getMessages sessionId =
        pySliceLast st.maxMessages (L ++ sessionLog turns sessionId) ∧
      (replayTurns turns st).maxMessages = st.maxMessages := by
  induction turns with
  | nil =>
    intro st L h
    simpa [replayTurns, sessionLog] using h
  | cons t ts ih =>
    intro st L h
    rw [SessionStore.getMessages] at h
    by_cases hsid : t.1 = sessionId
    · have hstep : (st.appendTurn t.1 t.2.1 t.2.2).getMessages sessionId =
          pySliceLast (st.appendTurn t.1 t.2.1 t.2.2).maxMessages
            (L ++ [Message.human t.2.1, Message.ai t.2.2]) := by
        simp only [SessionStore.appendTurn, SessionStore.getMessages, hsid, if_true,
          eq_self_iff_true]
        rw [h, pySliceLast_append_pySliceLast]
      have hmax : (st.appendTurn t.1 t.2.1 t.2.2).maxMessages = st.maxMessages := rfl
      have := ih (st.appendTurn t.1 t.2.1 t.2.2) (L ++ [Message.human t.2.1, Message.ai t.2.2])
        (by rw [hstep])
      simp only [replayTurns, List.foldl_cons] at this ⊢
      rw [hmax] at this
      refine ⟨?_, this.2⟩
      rw [this.1, sessionLog, hsid]
      simp
    · have hstep : (st.appendTurn t.1 t.2.1 t.2.2).getMessages sessionId =
          pySliceLast (st.appendTurn t.1 t.2.1 t.2.2).maxMessages L := by
        simp only [SessionStore.appendTurn, SessionStore.getMessages]
        rw [if_neg (fun hh => hsid hh.symm)]
        exact h
      have hmax : (st.appendTurn t.1 t.2.1 t.2.2).maxMessages = st.maxMessages := rfl
      have := ih (st.appendTurn t.1 t.2.1 t.2.2) L (by rw [hstep])
      simp only [replayTurns, List.foldl_cons] at this ⊢
      rw [hmax] at this
      refine ⟨?_, this.2⟩
      rw [this.1, sessionLog, if_neg hsid]
      simp

theorem sessionLog_length_of_all (sessionId : String) :
    ∀ (turns : List (String × String × String)), (∀ t ∈ turns, t.1 = sessionId) →
      (sessionLog turns sessionId).length = 2 * turns.length := by
  intro turns
  induction turns with
  | nil => intro _; simp [sessionLog]
  | cons t ts ih =>
    intro hall
    have h1 : t.1 = sessionId := hall t (List.mem_cons_self t ts)
    have h2 := ih (fun x hx => hall x (List.mem_cons_of_mem t hx))
    simp [sessionLog, h1, h2]
    omega

/-- C9: Session history is capped to the 10 most recent messages per
session: after any sequence of `append_turn` calls (each appending a user
message then an assistant message), `get_messages` for a session id
returns exactly the most recent at-most-10 of the messages appended for
that id, in order; in particular appending 6 user/assistant pairs
(12 messages) for one session leaves exactly the last 10 retrievable. -/
theorem c9_history_capped_to_ten (turns : List (String × String × String)) (sessionId : String) :
    (replayTurns turns (SessionStore.init 10)).getMessages sessionId =
      pySliceLast 10 (sessionLog turns sessionId) ∧
    ((∀ t ∈ turns, t.1 = sessionId) → turns.length = 6 →
      (replayTurns turns (SessionStore.init 10)).getMessages sessionId =
        (sessionLog turns sessionId).drop 2 ∧
      ((replayTurns turns (SessionStore.init 10)).getMessages sessionId).length = 10) := by
  have base : (SessionStore.init 10).getMessages sessionId =
      pySliceLast (SessionStore.init 10).maxMessages [] := by
    simp [SessionStore.init, SessionStore.getMessages, pySliceLast]
  have main := (replayTurns_getMessages sessionId turns (SessionStore.init 10) [] base).1
  have hmax : (SessionStore.init 10).maxMessages = 10 := rfl
  rw [hmax] at main
  simp only [List.nil_append] at main
  refine ⟨main, fun hall hlen => ?_⟩
  have hloglen : (sessionLog turns sessionId).length = 12 := by
    rw [sessionLog_length_of_all sessionId turns hall, hlen]
  constructor
  · rw [main, pySliceLast, if_neg (by omega), hloglen]
  · rw [main, pySliceLast, if_neg (by omega), List.length_drop, hloglen]

/-- Witness for C9 at a concrete input: six user/assistant pairs appended
to session "s" leave exactly the last 10 messages. -/
theorem c9_history_capped_to_ten_witness :
    (replayTurns
        [("s", "u1", "a1"), ("s", "u2", "a2"), ("s", "u3", "a3"),
         ("s", "u4", "a4"), ("s", "u5", "a5"), ("s", "u6", "a6")]
        (SessionStore.init 10)).getMessages "s" =
      (sessionLog
        [("s", "u1", "a1"), ("s", "u2", "a2"), ("s", "u3", "a3"),
         ("s", "u4", "a4"), ("s", "u5", "a5"), ("s", "u6", "a6")] "s").drop 2 ∧
    ((replayTurns
        [("s", "u1", "a1"), ("s", "u2", "a2"), ("s", "u3", "a3"),
         ("s", "u4", "a4"), ("s", "u5", "a5"), ("s", "u6", "a6")]
        (SessionStore.init 10)).getMessages "s").length = 10 :=
  (c9_history_capped_to_ten
    [("s", "u1", "a1"), ("s", "u2", "a2"), ("s", "u3", "a3"),
     ("s", "u4", "a4"), ("s", "u5", "a5"), ("s", "u6", "a6")] "s").2
    (by decide) (by decide)

/-! ## Python dict model

The manifest (`{"files": {...}}`) and the chunk store are Python dicts
keyed by relative paths, modelled as association lists without duplicate
keys (`dictInsert` replaces in place or appends, as dict assignment does;
iteration order is insertion order, as in Python). -/

def dictGet (m : List (String × α)) (k : String) : Option α :=
  (m.find? (fun kv => kv.1 == k)).map (fun kv => kv.2)

def dictInsert (m : List (String × α)) (k : String) (v : α) : List (String × α) :=
  if (m.find? (fun kv => kv.1 == k)).isSome then
    m.map (fun kv => if kv.1 == k then (k, v) else kv)
  else m ++ [(k, v)]

def dictErase (m : List (String × α)) (k : String) : List (String × α) :=
  m.filter (fun kv => kv.1 != k)

def dictKeys (m : List (String × α)) : List String :=
  m.map (fun kv => kv.1)

/-! ## Ingestion (`app/rag/ingest.py`)

External collaborators appear as oracles:
  * `hashBytes : List Nat → String` models `hashlib.sha256(...).hexdigest()`
    over the file's raw bytes (`_sha256_file`, lines 20–25);
  * `splitter : String → List String` models
    `RecursiveCharacterTextSplitter.split_text` (deterministic);
  * each `SrcFile` carries the outcome of the external calls made for that
    file during the run: the result of `_extract_file_text` (filesystem +
    pypdf), whether `vectorstore.get` raises during the presence check, and
    the outcomes of `vectorstore.delete` / `vectorstore.add_documents`. -/

structure ManifestEntry where
  sha256 : String
  docIds : List String
deriving DecidableEq, Repr

structure ChunkRecord where
  pageContent : String
  fileSha256 : String
  chunkIndex : Nat
deriving DecidableEq, Repr

abbrev Manifest := List (String × ManifestEntry)
abbrev ChunkStore := List (String × List ChunkRecord)

deriving instance DecidableEq for Except

/-- Python `str.strip()` with no argument: remove leading and trailing
whitespace. -/
def pyStrip (s : String) : String :=
  ⟨((s.data.dropWhile Char.isWhitespace).reverse.dropWhile Char.isWhitespace).reverse⟩

/-- A file discovered by `_iter_ingest_files`, together with the outcomes
of the external calls the run will make for it. -/
structure SrcFile where
  relPath : String
  bytes : List Nat
  extractResult : Except String String
  getFails : Bool
  deleteError : Option PyError
  addError : Option PyError
deriving DecidableEq, Repr

/-- `_has_persisted_vectors` (lines 79–88): false on an empty id list;
sample the first `min 3 (len doc_ids)` ids; a raising `vectorstore.get`
yields false; otherwise true iff the store reports any sampled id as
present. -/
def hasPersistedVectors (vindexIds : List String) (getFails : Bool) (docIds : List String) : Bool :=
  if docIds.isEmpty then false
  else
    let sampleIds := docIds.take 3
    if getFails then false
    else !(sampleIds.filter (fun i => vindexIds.contains i)).isEmpty

/-- The skip test of line 138:
`not force and previous.get("sha256") == file_hash and has_vector_index`
(`previous` is `{}` when the path is untracked, so the hash comparison is
then false). -/
def skipDecision (force : Bool) (previous : Option ManifestEntry) (fileHash : String)
    (vindexIds : List String) (getFails : Bool) : Bool :=
  !force && ((previous.map (fun e => e.sha256)) == some fileHash) &&
    hasPersistedVectors vindexIds getFails ((previous.map (fun e => e.docIds)).getD [])

/-- The per-chunk ids of lines 159–161: `f"{rel_path}:{file_hash}:{index}"`
for each chunk index. -/
def chunkDocIds (relPath fileHash : String) (numChunks : Nat) : List String :=
  (List.range numChunks).map (fun index => relPath ++ ":" ++ fileHash ++ ":" ++ toString index)

/-- The chunk-store entry written at lines 173–180: page content, file
hash and chunk index per chunk. -/
def chunkRecords (fileHash : String) (chunks : List String) : List ChunkRecord :=
  chunks.enum.map (fun p => ⟨p.2, fileHash, p.1⟩)

/-- `vectorstore.delete(ids=...)`: the listed ids disappear from the
index. -/
def vindexDelete (vindexIds ids : List String) : List String :=
  vindexIds.filter (fun i => !(ids.contains i))

/-- The in-memory state of one `ingest_documents` run. -/
structure RunState where
  tracked : Manifest
  chunkStore : ChunkStore
  vindexIds : List String
  indexedFiles : List String
  skippedFiles : List String
  totalChunksAdded : Nat
  canUseRemoteEmbeddings : Bool
deriving DecidableEq, Repr

/-- Lines 142–202 of `ingest_documents`: everything after the skip test
for one file — extraction, the blank check, chunking, the unconditional
chunk-store write, the guarded embed call with its auth-error fallback,
and the manifest/counters update. -/
def processFileBody (hashBytes : List Nat → String) (splitter : String → List String)
    (st : RunState) (f : SrcFile) : Except PyError RunState :=
  let fileHash := hashBytes f.bytes
  let previousIds := ((dictGet st.tracked f.relPath).map (fun e => e.docIds)).getD []
  match f.extractResult with
  | Except.error _ =>
      Except.ok { st with
        skippedFiles := st.skippedFiles ++ [f.relPath]
        tracked := dictInsert st.tracked f.relPath ⟨fileHash, previousIds⟩ }
  | Except.ok text =>
    if pyStrip text == "" then
      Except.ok { st with
        skippedFiles := st.skippedFiles ++ [f.relPath]
        tracked := dictInsert st.tracked f.relPath ⟨fileHash, []⟩
        chunkStore := dictInsert st.chunkStore f.relPath [] }
    else
      let chunks := splitter text
      let docIds := chunkDocIds f.relPath fileHash chunks.length
      let stored := { st with
        chunkStore := dictInsert st.chunkStore f.relPath (chunkRecords fileHash chunks) }
      let finish := fun (st2 : RunState) (persistedIds : List String) =>
        Except.ok { st2 with
          tracked := dictInsert st2.tracked f.relPath ⟨fileHash, persistedIds⟩
          indexedFiles := st2.indexedFiles ++ [f.relPath]
          totalChunksAdded := st2.totalChunksAdded + chunks.length }
      let onEmbedError := fun (st2 : RunState) (e : PyError) =>
        if isEmbeddingAuthError e then
          finish { st2 with canUseRemoteEmbeddings := false } previousIds
        else Except.error e
      if !chunks.isEmpty && stored.canUseRemoteEmbeddings then
        if previousIds.isEmpty then
          match f.addError with
          | some e => onEmbedError stored e
          | none => finish { stored with vindexIds := stored.vindexIds ++ docIds } docIds
        else
          match f.deleteError with
          | some e => onEmbedError stored e
          | none =>
            let afterDelete := { stored with
              vindexIds := vindexDelete stored.vindexIds previousIds }
            match f.addError with
            | some e => onEmbedError afterDelete e
            | none => finish { afterDelete with
                vindexIds := afterDelete.vindexIds ++ docIds } docIds
      else
        finish stored previousIds

/-- One iteration of the per-file loop (lines 130–202): compute the hash,
look up the prior entry, either skip (line 138–140) or run the body. -/
def processFile (hashBytes : List Nat → String) (splitter : String → List String)
    (force : Bool) (st : RunState) (f : SrcFile) : Except PyError RunState :=
  let fileHash := hashBytes f.bytes
  let previous := dictGet st.tracked f.relPath
  if skipDecision force previous fileHash st.vindexIds f.getFails then
    Except.ok { st with skippedFiles := st.skippedFiles ++ [f.relPath] }
  else processFileBody hashBytes splitter st f

/-- The whole per-file loop; a non-auth embedding failure propagates and
aborts the run. -/
def processFiles (hashBytes : List Nat → String) (splitter : String → List String)
    (force : Bool) : RunState → List SrcFile → Except PyError RunState
  | st, [] => Except.ok st
  | st, f :: fs =>
    match processFile hashBytes splitter force st f with
    | Except.ok st' => processFiles hashBytes splitter force st' fs
    | Except.error e => Except.error e

/-- Lines 204–213: reconcile stale manifest entries.  `missing_paths` is
computed up front; for each stale path the vectors are deleted best-effort
(only when it has ids and embeddings are still usable; the oracle
`staleDeleteFails` says whether that `vectorstore.delete` raises, and a
raise is swallowed), then the path is dropped from both the manifest and
the chunk store. -/
def staleStep (staleDeleteFails : String → Bool) (acc : RunState) (stalePath : String) :
    RunState :=
  let staleIds := ((dictGet acc.tracked stalePath).map (fun e => e.docIds)).getD []
  let acc2 :=
    if !staleIds.isEmpty && acc.canUseRemoteEmbeddings && !(staleDeleteFails stalePath) then
      { acc with vindexIds := vindexDelete acc.vindexIds staleIds }
    else acc
  { acc2 with
    tracked := dictErase acc2.tracked stalePath
    chunkStore := dictErase acc2.chunkStore stalePath }

def reconcileStale (staleDeleteFails : String → Bool) (st : RunState)
    (discovered : List String) : RunState :=
  let missingPaths := (dictKeys st.tracked).filter (fun p => !(discovered.contains p))
  missingPaths.foldl (staleStep staleDeleteFails) st

/-- The persisted state `ingest_documents` reads at entry and writes at
exit: the manifest file, the chunk-store file, and the Chroma collection
(of which only the set of stored ids matters here). -/
structure IngestState where
  manifest : Manifest
  chunkStore : ChunkStore
  vindexIds : List String
deriving DecidableEq, Repr

structure IngestResponse where
  indexedFiles : List String
  skippedFiles : List String
  totalChunksAdded : Nat
  collectionName : String
  persistDir : String
deriving DecidableEq, Repr

def COLLECTION_NAME : String := "chaty"

/-- `ingest_documents(force)` (lines 116–224) over the discovered file
list (already sorted, as `_iter_ingest_files` sorts): load state, run the
per-file loop starting with `can_use_remote_embeddings = True`, reconcile
stale entries against the discovered paths, save manifest and chunk
store, and build the response.  A propagated (non-auth) embedding error
aborts the run before anything is saved. -/
def ingestDocuments (hashBytes : List Nat → String) (splitter : String → List String)
    (staleDeleteFails : String → Bool) (persistDir : String) (force : Bool)
    (files : List SrcFile) (σ : IngestState) : Except PyError (IngestResponse × IngestState) :=
  let st0 : RunState := ⟨σ.manifest, σ.chunkStore, σ.vindexIds, [], [], 0, true⟩
  match processFiles hashBytes splitter force st0 files with
  | Except.error e => Except.error e
  | Except.ok st1 =>
    let discovered := files.map (fun f => f.relPath)
    let st2 := reconcileStale staleDeleteFails st1 discovered
    Except.ok
      (⟨st2.indexedFiles, st2.skippedFiles, st2.totalChunksAdded, COLLECTION_NAME, persistDir⟩,
       ⟨st2.tracked, st2.chunkStore, st2.vindexIds⟩)


/-! ## Dictionary lemmas -/

theorem dictGet_cons (a : String) (b : α) (m : List (String × α)) (k : String) :
    dictGet ((a, b) :: m) k = if a = k then some b else dictGet m k := by
  by_cases h : a = k
  · simp [dictGet, List.find?, h]
  · have hne : (a == k) = false := beq_eq_false_iff_ne.mpr h
    simp [dictGet, List.find?, hne, h]

theorem dictInsert_cons_ne (a : String) (b : α) (m : List (String × α)) (k : String) (v : α)
    (h : a ≠ k) : dictInsert ((a, b) :: m) k v = (a, b) :: dictInsert m k v := by
  have hne : (a == k) = false := beq_eq_false_iff_ne.mpr h
  simp only [dictInsert]
  rw [List.find?_cons_of_neg _ (by simp [hne])]
  by_cases h2 : (m.find? (fun kv => kv.1 == k)).isSome
  · rw [if_pos h2, if_pos h2, List.map_cons, hne]
    simp
  · rw [if_neg h2, if_neg h2, List.cons_append]

theorem dictInsert_cons_eq (a : String) (b : α) (m : List (String × α)) (k : String) (v : α)
    (h : a = k) :
    dictInsert ((a, b) :: m) k v =
      (k, v) :: m.map (fun kv => if kv.1 == k then (k, v) else kv) := by
  subst h
  simp only [dictInsert]
  rw [List.find?_cons_of_pos _ (by simp)]
  simp

theorem dictGet_mapReplace_ne (m : List (String × α)) (k p : String) (v : α) (h : p ≠ k) :
    dictGet (m.map (fun kv => if kv.1 == k then (k, v) else kv)) p = dictGet m p := by
  induction m with
  | nil => rfl
  | cons kv m ih =>
    obtain ⟨a, b⟩ := kv
    by_cases hak : a = k
    · have : (a == k) = true := by simp [hak]
      simp only [List.map_cons, this, if_true]
      rw [dictGet_cons, dictGet_cons, if_neg (Ne.symm h), if_neg (fun hap => h (hak ▸ hap).symm)]
      exact ih
    · have : (a == k) = false := beq_eq_false_iff_ne.mpr hak
      simp only [List.map_cons, this, Bool.false_eq_true, if_false]
      rw [dictGet_cons, dictGet_cons]
      by_cases hap : a = p
      · rw [if_pos hap, if_pos hap]
      · rw [if_neg hap, if_neg hap]
        exact ih

theorem dictGet_insert_self (m : List (String × α)) (k : String) (v : α) :
    dictGet (dictInsert m k v) k = some v := by
  induction m with
  | nil =>
    rw [show dictInsert ([] : List (String × α)) k v = [(k, v)] from rfl, dictGet_cons, if_pos rfl]
  | cons kv m ih =>
    obtain ⟨a, b⟩ := kv
    by_cases h : a = k
    · rw [dictInsert_cons_eq a b m k v h, dictGet_cons, if_pos rfl]
    · rw [dictInsert_cons_ne a b m k v h, dictGet_cons, if_neg h]
      exact ih

theorem dictGet_insert_ne (m : List (String × α)) (k p : String) (v : α) (h : p ≠ k) :
    dictGet (dictInsert m k v) p = dictGet m p := by
  induction m with
  | nil =>
    rw [show dictInsert ([] : List (String × α)) k v = [(k, v)] from rfl, dictGet_cons,
      if_neg (Ne.symm h)]
  | cons kv m ih =>
    obtain ⟨a, b⟩ := kv
    by_cases hak : a = k
    · rw [dictInsert_cons_eq a b m k v hak, dictGet_cons, if_neg (Ne.symm h), dictGet_cons,
        if_neg (fun hap => h (hak ▸ hap).symm)]
      exact dictGet_mapReplace_ne m k p v h
    · rw [dictInsert_cons_ne a b m k v hak, dictGet_cons, dictGet_cons]
      by_cases hap : a = p
      · rw [if_pos hap, if_pos hap]
      · rw [if_neg hap, if_neg hap]
        exact ih

theorem dictErase_cons (a : String) (b : α) (m : List (String × α)) (k : String) :
    dictErase ((a, b) :: m) k =
      if a = k then dictErase m k else (a, b) :: dictErase m k := by
  by_cases h : a = k
  · have hne : (a != k) = false := by simp [h]
    simp [dictErase, List.filter, hne, h]
  · have hne : (a != k) = true := by simp [h]
    simp [dictErase, List.filter, hne, h]

theorem dictGet_erase_self (m : List (String × α)) (k : String) :
    dictGet (dictErase m k) k = none := by
  induction m with
  | nil => rfl
  | cons kv m ih =>
    obtain ⟨a, b⟩ := kv
    rw [dictErase_cons]
    by_cases h : a = k
    · rw [if_pos h]
      exact ih
    · rw [if_neg h, dictGet_cons, if_neg h]
      exact ih

theorem dictGet_erase_ne (m : List (String × α)) (k p : String) (h : p ≠ k) :
    dictGet (dictErase m k) p = dictGet m p := by
  induction m with
  | nil => rfl
  | cons kv m ih =>
    obtain ⟨a, b⟩ := kv
    rw [dictErase_cons, dictGet_cons]
    by_cases hak : a = k
    · rw [if_pos hak, if_neg (fun hap => h (hak ▸ hap).symm)]
      exact ih
    · rw [if_neg hak, dictGet_cons]
      by_cases hap : a = p
      · rw [if_pos hap, if_pos hap]
      · rw [if_neg hap, if_neg hap]
        exact ih

theorem dictGet_erase_none (m : List (String × α)) (k p : String)
    (h : dictGet m p = none) : dictGet (dictErase m k) p = none := by
  by_cases hpk : p = k
  · subst hpk
    exact dictGet_erase_self m p
  · rwa [dictGet_erase_ne m k p hpk]

theorem dictGet_insert_ne_none (m : List (String × α)) (k p : String) (v : α)
    (h : dictGet m p ≠ none) : dictGet (dictInsert m k v) p ≠ none := by
  by_cases hpk : p = k
  · subst hpk
    rw [dictGet_insert_self]
    simp
  · rwa [dictGet_insert_ne m k p v hpk]

theorem dictGet_eq_none_iff (m : List (String × α)) (p : String) :
    dictGet m p = none ↔ p ∉ dictKeys m := by
  induction m with
  | nil => simp [dictGet, dictKeys, List.find?]
  | cons kv m ih =>
    obtain ⟨a, b⟩ := kv
    rw [dictGet_cons, show dictKeys ((a, b) :: m) = a :: dictKeys m from rfl]
    by_cases h : a = p
    · subst h
      simp
    · rw [if_neg h, ih]
      constructor
      · intro hn hmem
        rcases List.mem_cons.mp hmem with he | hm
        · exact h he.symm
        · exact hn hm
      · intro hn hm
        exact hn (List.mem_cons_of_mem a hm)

theorem dictKeys_mapReplace (m : List (String × α)) (k : String) (v : α) :
    dictKeys (m.map (fun kv => if kv.1 == k then (k, v) else kv)) = dictKeys m := by
  induction m with
  | nil => rfl
  | cons kv m ih =>
    obtain ⟨a, b⟩ := kv
    by_cases hak : a = k
    · have : (a == k) = true := by simp [hak]
      simp only [List.map_cons, this, if_true, dictKeys] at ih ⊢
      rw [ih, hak]
    · have : (a == k) = false := beq_eq_false_iff_ne.mpr hak
      simp only [List.map_cons, this, Bool.false_eq_true, if_false, dictKeys] at ih ⊢
      rw [ih]

theorem dictKeys_insert_nodup (m : List (String × α)) (k : String) (v : α)
    (h : (dictKeys m).Nodup) : (dictKeys (dictInsert m k v)).Nodup := by
  by_cases h2 : (m.find? (fun kv => kv.1 == k)).isSome
  · rw [show dictInsert m k v =
        m.map (fun kv => if kv.1 == k then (k, v) else kv) from by simp [dictInsert, h2]]
    rwa [dictKeys_mapReplace]
  · rw [show dictInsert m k v = m ++ [(k, v)] from by simp [dictInsert, h2]]
    have hk : dictGet m k = none := by
      simp only [dictGet]
      rw [Option.not_isSome_iff_eq_none.mp h2]
      rfl
    have hknot : k ∉ dictKeys m := (dictGet_eq_none_iff m k).mp hk
    rw [show dictKeys (m ++ [(k, v)]) = dictKeys m ++ [k] from by simp [dictKeys]]
    refine h.append (List.nodup_singleton k) (fun x hx hxk => ?_)
    have hxe : x = k := by simpa using hxk
    exact hknot (hxe ▸ hx)

theorem dictMapReplace_of_not_mem (m : List (String × α)) (k : String) (v : α)
    (h : k ∉ dictKeys m) : m.map (fun kv => if kv.1 == k then (k, v) else kv) = m := by
  induction m with
  | nil => rfl
  | cons kv m ih =>
    obtain ⟨a, b⟩ := kv
    have hma : a ≠ k := by
      intro hak
      exact h (hak ▸ List.mem_cons_self a (dictKeys m))
    have hmm : k ∉ dictKeys m := fun hm => h (List.mem_cons_of_mem a hm)
    have : (a == k) = false := beq_eq_false_iff_ne.mpr hma
    simp only [List.map_cons, this, Bool.false_eq_true, if_false]
    rw [ih hmm]

theorem dictInsert_same (m : List (String × α)) (k : String) (v : α)
    (hnd : (dictKeys m).Nodup) (h : dictGet m k = some v) : dictInsert m k v = m := by
  induction m with
  | nil => simp [dictGet, List.find?] at h
  | cons kv m ih =>
    obtain ⟨a, b⟩ := kv
    rw [dictGet_cons] at h
    have hnd' : a ∉ dictKeys m ∧ (dictKeys m).Nodup := by
      rw [show dictKeys ((a, b) :: m) = a :: dictKeys m from rfl] at hnd
      exact List.nodup_cons.mp hnd
    by_cases hak : a = k
    · rw [if_pos hak] at h
      have hb : b = v := by injection h
      rw [dictInsert_cons_eq a b m k v hak,
        dictMapReplace_of_not_mem m k v (hak ▸ hnd'.1), ← hak, hb]
    · rw [if_neg hak] at h
      rw [dictInsert_cons_ne a b m k v hak, ih hnd'.2 h]

/-! ## C10: files with an empty recorded vector-id list are never skipped -/

/-- C10: A file whose manifest entry records an empty vector-id list (for
example one that extracted to blank text, or one ingested while embedding
was disabled with no prior vectors) is never skipped by `ingest_documents`
even when unforced and its content hash is unchanged: the presence check
`_has_persisted_vectors` is false on an empty list, so the skip test of
line 138 fails and `processFile` proceeds to the re-extraction body on
every run. -/
theorem c10_empty_vector_ids_never_skipped :
    (∀ (vindexIds : List String) (getFails : Bool),
      hasPersistedVectors vindexIds getFails [] = false) ∧
    (∀ (hashBytes : List Nat → String) (splitter : String → List String)
        (force : Bool) (st : RunState) (f : SrcFile) (entry : ManifestEntry),
      dictGet st.tracked f.relPath = some entry → entry.docIds = [] →
      skipDecision force (dictGet st.tracked f.relPath) (hashBytes f.bytes)
          st.vindexIds f.getFails = false ∧
      processFile hashBytes splitter force st f = processFileBody hashBytes splitter st f) := by
  have hbase : ∀ (vindexIds : List String) (getFails : Bool),
      hasPersistedVectors vindexIds getFails [] = false := by
    intro v g
    simp [hasPersistedVectors]
  refine ⟨hbase, ?_⟩
  intro hashBytes splitter force st f entry hentry hids
  have hskip : skipDecision force (dictGet st.tracked f.relPath) (hashBytes f.bytes)
      st.vindexIds f.getFails = false := by
    rw [skipDecision, hentry]
    have : ((some entry).map (fun e => e.docIds)).getD [] = [] := by simp [hids]
    rw [this, hbase st.vindexIds f.getFails]
    simp
  refine ⟨hskip, ?_⟩
  rw [processFile]
  simp only [hskip, Bool.false_eq_true, if_false]

/-- Witness for C10: a session with a tracked file whose entry has no
vector ids is routed to the re-extraction body. -/
theorem c10_empty_vector_ids_never_skipped_witness :
    (dictGet (⟨[("ingest/a.txt", ⟨"H0", []⟩)], [], [], [], [], 0, true⟩ : RunState).tracked
        "ingest/a.txt" = some ⟨"H0", []⟩) ∧
    (skipDecision false
        (dictGet (⟨[("ingest/a.txt", ⟨"H0", []⟩)], [], [], [], [], 0, true⟩ : RunState).tracked
          "ingest/a.txt")
        ((fun _ => "H0") [0]) [] false = false ∧
      processFile (fun _ => "H0") (fun t => [t]) false
          ⟨[("ingest/a.txt", ⟨"H0", []⟩)], [], [], [], [], 0, true⟩
          ⟨"ingest/a.txt", [0], Except.ok "text", false, none, none⟩ =
        processFileBody (fun _ => "H0") (fun t => [t])
          ⟨[("ingest/a.txt", ⟨"H0", []⟩)], [], [], [], [], 0, true⟩
          ⟨"ingest/a.txt", [0], Except.ok "text", false, none, none⟩) :=
  ⟨by decide,
   (c10_empty_vector_ids_never_skipped.2 (fun _ => "H0") (fun t => [t]) false
      ⟨[("ingest/a.txt", ⟨"H0", []⟩)], [], [], [], [], 0, true⟩
      ⟨"ingest/a.txt", [0], Except.ok "text", false, none, none⟩
      ⟨"H0", []⟩ (by decide) rfl)⟩

/-! ## C2: the manifest/vector-index invariant fails after an auth error -/

/-- C2 counterexample: a changed file whose old vectors are deleted and
whose `add_documents` then fails with a 401 leaves the run successful but
the manifest recording the old id while the index no longer stores it:
the claimed invariant "every recorded id corresponds to a stored vector"
is false after this run. -/
theorem c2_counterexample :
    ingestDocuments (fun b => if b = [49] then "H1" else "H0") (fun t => [t]) (fun _ => false)
        "backend/data/chroma" false
        [⟨"ingest/a.txt", [49], Except.ok "new text", false, none,
          some (PyError.apiStatusError 401)⟩]
        ⟨[("ingest/a.txt", ⟨"H0", ["ingest/a.txt:H0:0"]⟩)],
         [("ingest/a.txt", [⟨"old text", "H0", 0⟩])], ["ingest/a.txt:H0:0"]⟩ =
      Except.ok
        (⟨["ingest/a.txt"], [], 1, "chaty", "backend/data/chroma"⟩,
         ⟨[("ingest/a.txt", ⟨"H1", ["ingest/a.txt:H0:0"]⟩)],
          [("ingest/a.txt", [⟨"new text", "H1", 0⟩])], []⟩) ∧
    dictGet [("ingest/a.txt", (⟨"H1", ["ingest/a.txt:H0:0"]⟩ : ManifestEntry))] "ingest/a.txt" =
      some ⟨"H1", ["ingest/a.txt:H0:0"]⟩ ∧
    "ingest/a.txt:H0:0" ∉ ([] : List String) := by
  refine ⟨by decide, by decide, by decide⟩

/-- C2 amended: after a run, a manifest entry can record vector ids whose
vectors were deleted during the run (the embed call deletes the previous
ids first; if `add_documents` then fails with an auth error the entry
keeps the deleted previous ids).  What the code does guarantee is the
guard the spec describes alongside the invariant: the skip decision never
trusts recorded ids — it requires an unchanged hash, a non-raising get,
and a sampled id (among the first three recorded) confirmed present in
the Vector Index. -/
theorem c2_amended_skip_requires_sampled_presence
    (force : Bool) (previous : Option ManifestEntry) (fileHash : String)
    (vindexIds : List String) (getFails : Bool)
    (h : skipDecision force previous fileHash vindexIds getFails = true) :
    force = false ∧ (previous.map (fun e => e.sha256)) = some fileHash ∧
    getFails = false ∧
    ∃ id ∈ ((previous.map (fun e => e.docIds)).getD []).take 3, id ∈ vindexIds := by
  rw [skipDecision] at h
  simp only [Bool.and_eq_true, Bool.not_eq_true'] at h
  obtain ⟨⟨hforce, hsha⟩, hpersist⟩ := h
  rw [hasPersistedVectors] at hpersist
  by_cases hempty : (((previous.map (fun e => e.docIds)).getD []).isEmpty : Bool)
  · rw [if_pos hempty] at hpersist
    exact absurd hpersist (by simp)
  · rw [if_neg hempty] at hpersist
    by_cases hget : getFails
    · rw [if_pos hget] at hpersist
      exact absurd hpersist (by simp)
    · rw [if_neg hget] at hpersist
      have hget' : getFails = false := by simpa using hget
      refine ⟨hforce, by simpa using hsha, hget', ?_⟩
      simp only [Bool.not_eq_true', ← List.isEmpty_iff, Bool.not_eq_true] at hpersist
      have hne : (((previous.map (fun e => e.docIds)).getD []).take 3).filter
          (fun i => vindexIds.contains i) ≠ [] := by
        intro hnil
        rw [hnil] at hpersist
        simp at hpersist
      obtain ⟨x, hx⟩ := List.exists_mem_of_ne_nil _ hne
      have := List.mem_filter.mp hx
      exact ⟨x, this.1, by simpa using this.2⟩

/-- Witness for C2's amended claim: a concrete skip decision that is true,
with the sampled id present in the index. -/
theorem c2_amended_skip_requires_sampled_presence_witness :
    skipDecision false (some ⟨"H0", ["i1"]⟩) "H0" ["i1"] false = true ∧
    (false = false ∧ ((some (⟨"H0", ["i1"]⟩ : ManifestEntry)).map (fun e => e.sha256)) = some "H0" ∧
      false = false ∧
      ∃ id ∈ (((some (⟨"H0", ["i1"]⟩ : ManifestEntry)).map (fun e => e.docIds)).getD []).take 3,
        id ∈ ["i1"]) :=
  ⟨by decide,
   c2_amended_skip_requires_sampled_presence false (some ⟨"H0", ["i1"]⟩) "H0" ["i1"] false
     (by decide)⟩

/-! ## C1: run-scoped embedding fallback on auth errors -/

theorem processFile_embed_authFail (hashBytes : List Nat → String)
    (splitter : String → List String) (st : RunState) (f : SrcFile) (e : PyError) (text : String)
    (hflag : st.canUseRemoteEmbeddings = true)
    (hskip : skipDecision false (dictGet st.tracked f.relPath) (hashBytes f.bytes)
      st.vindexIds f.getFails = false)
    (hext : f.extractResult = Except.ok text)
    (hblank : (pyStrip text == "") = false)
    (hchunks : (splitter text).isEmpty = false)
    (hdel : f.deleteError = none)
    (hadd : f.addError = some e)
    (hauth : isEmbeddingAuthError e = true) :
    ∃ st', processFile hashBytes splitter false st f = Except.ok st' ∧
      st'.canUseRemoteEmbeddings = false ∧
      dictGet st'.tracked f.relPath =
        some ⟨hashBytes f.bytes,
          ((dictGet st.tracked f.relPath).map (fun en => en.docIds)).getD []⟩ ∧
      dictGet st'.chunkStore f.relPath =
        some (chunkRecords (hashBytes f.bytes) (splitter text)) := by
  rw [processFile]
  simp only [hskip, Bool.false_eq_true, if_false]
  rw [processFileBody, hext]
  simp only [hblank, Bool.false_eq_true, if_false, hchunks, hflag, hdel, hadd, hauth,
    Bool.not_false, Bool.and_self, if_true, Bool.true_and, Bool.and_true, if_false]
  by_cases hprev : (((dictGet st.tracked f.relPath).map (fun en => en.docIds)).getD []).isEmpty
  · simp only [hprev, if_true]
    refine ⟨_, rfl, rfl, ?_, ?_⟩
    · simp [dictGet_insert_self]
    · simp [dictGet_insert_self]
  · simp only [hprev, Bool.false_eq_true, if_false]
    refine ⟨_, rfl, rfl, ?_, ?_⟩
    · simp [dictGet_insert_self]
    · simp [dictGet_insert_self]

theorem processFile_embedding_disabled (hashBytes : List Nat → String)
    (splitter : String → List String) (force : Bool) (st : RunState) (f : SrcFile) (text : String)
    (hflag : st.canUseRemoteEmbeddings = false)
    (hskip : skipDecision force (dictGet st.tracked f.relPath) (hashBytes f.bytes)
      st.vindexIds f.getFails = false)
    (hext : f.extractResult = Except.ok text)
    (hblank : (pyStrip text == "") = false) :
    ∃ st', processFile hashBytes splitter force st f = Except.ok st' ∧
      st'.canUseRemoteEmbeddings = false ∧
      st'.vindexIds = st.vindexIds ∧
      dictGet st'.tracked f.relPath =
        some ⟨hashBytes f.bytes,
          ((dictGet st.tracked f.relPath).map (fun en => en.docIds)).getD []⟩ ∧
      dictGet st'.chunkStore f.relPath =
        some (chunkRecords (hashBytes f.bytes) (splitter text)) := by
  rw [processFile]
  simp only [hskip, Bool.false_eq_true, if_false]
  rw [processFileBody, hext]
  simp only [hblank, Bool.false_eq_true, if_false, hflag, Bool.and_false, if_false]
  refine ⟨_, rfl, rfl, rfl, ?_, ?_⟩
  · simp [dictGet_insert_self]
  · simp [dictGet_insert_self]

theorem processFile_flag_monotone (hashBytes : List Nat → String)
    (splitter : String → List String) (force : Bool) (st : RunState) (f : SrcFile)
    (st' : RunState)
    (h : processFile hashBytes splitter force st f = Except.ok st')
    (hflag : st.canUseRemoteEmbeddings = false) :
    st'.canUseRemoteEmbeddings = false := by
  rw [processFile] at h
  by_cases hskip : skipDecision force (dictGet st.tracked f.relPath) (hashBytes f.bytes)
      st.vindexIds f.getFails
  · simp only [hskip, if_true] at h
    cases h
    exact hflag
  · simp only [hskip, Bool.false_eq_true, if_false] at h
    rw [processFileBody] at h
    cases hext : f.extractResult with
    | error err =>
      rw [hext] at h
      cases h
      exact hflag
    | ok text =>
      rw [hext] at h
      by_cases hblank : (pyStrip text == "") = true
      · simp only [hblank, if_true] at h
        cases h
        exact hflag
      · simp only [Bool.not_eq_true] at hblank
        simp only [hblank, Bool.false_eq_true, if_false, hflag, Bool.and_false, if_false] at h
        cases h
        rfl

theorem processFile_ok_of_auth_only (hashBytes : List Nat → String)
    (splitter : String → List String) (force : Bool) (st : RunState) (f : SrcFile)
    (hf : ∀ e, f.deleteError = some e ∨ f.addError = some e → isEmbeddingAuthError e = true) :
    ∃ st', processFile hashBytes splitter force st f = Except.ok st' := by
  rw [processFile]
  by_cases hskip : skipDecision force (dictGet st.tracked f.relPath) (hashBytes f.bytes)
      st.vindexIds f.getFails
  · simp only [hskip, if_true]
    exact ⟨_, rfl⟩
  · simp only [hskip, Bool.false_eq_true, if_false]
    rw [processFileBody]
    cases hext : f.extractResult with
    | error err => exact ⟨_, rfl⟩
    | ok text =>
      by_cases hblank : (pyStrip text == "") = true
      · simp only [hblank, if_true]
        exact ⟨_, rfl⟩
      · simp only [Bool.not_eq_true] at hblank
        simp only [hblank, Bool.false_eq_true, if_false]
        by_cases hembed : (!(splitter text).isEmpty && st.canUseRemoteEmbeddings) = true
        · simp only [hembed, if_true]
          by_cases hprev :
              (((dictGet st.tracked f.relPath).map (fun en => en.docIds)).getD []).isEmpty
          · simp only [hprev, if_true]
            cases hadd : f.addError with
            | none => exact ⟨_, rfl⟩
            | some e =>
              have he := hf e (Or.inr hadd)
              simp only [he, if_true]
              exact ⟨_, rfl⟩
          · simp only [hprev, Bool.false_eq_true, if_false]
            cases hdel : f.deleteError with
            | some e =>
              have he := hf e (Or.inl hdel)
              simp only [he, if_true]
              exact ⟨_, rfl⟩
            | none =>
              cases hadd : f.addError with
              | none => exact ⟨_, rfl⟩
              | some e =>
                have he := hf e (Or.inr hadd)
                simp only [he, if_true]
                exact ⟨_, rfl⟩
        · simp only [Bool.not_eq_true] at hembed
          simp only [hembed, Bool.false_eq_true, if_false]
          exact ⟨_, rfl⟩

theorem processFiles_ok_of_auth_only (hashBytes : List Nat → String)
    (splitter : String → List String) (force : Bool) :
    ∀ (files : List SrcFile) (st : RunState),
      (∀ f ∈ files, ∀ e, f.deleteError = some e ∨ f.addError = some e →
        isEmbeddingAuthError e = true) →
      ∃ st', processFiles hashBytes splitter force st files = Except.ok st' := by
  intro files
  induction files with
  | nil => intro st _; exact ⟨st, rfl⟩
  | cons f fs ih =>
    intro st hall
    obtain ⟨st1, hst1⟩ := processFile_ok_of_auth_only hashBytes splitter force st f
      (hall f (List.mem_cons_self f fs))
    obtain ⟨st2, hst2⟩ := ih st1 (fun g hg => hall g (List.mem_cons_of_mem f hg))
    refine ⟨st2, ?_⟩
    rw [processFiles, hst1]
    exact hst2

theorem processFiles_flag_monotone (hashBytes : List Nat → String)
    (splitter : String → List String) (force : Bool) :
    ∀ (files : List SrcFile) (st st' : RunState),
      processFiles hashBytes splitter force st files = Except.ok st' →
      st.canUseRemoteEmbeddings = false → st'.canUseRemoteEmbeddings = false := by
  intro files
  induction files with
  | nil =>
    intro st st' h hflag
    rw [processFiles] at h
    cases h
    exact hflag
  | cons f fs ih =>
    intro st st' h hflag
    rw [processFiles] at h
    cases hpf : processFile hashBytes splitter force st f with
    | error e => rw [hpf] at h; cases h
    | ok st1 =>
      rw [hpf] at h
      exact ih st1 st' h (processFile_flag_monotone hashBytes splitter force st f st1 hpf hflag)

/-- C1: During `ingest_documents`, if an embedding call (delete previous
ids + add new documents) fails with an authorization error (401/403
status or `AuthenticationError`), the run does not abort: the failing
file keeps its previously recorded vector ids while its chunks are
written, the run-scoped flag `can_use_remote_embeddings` goes false and
stays false for the remainder of the pass, every subsequent non-blank
file's chunks are still written to the chunk store, and such a file's
manifest entry keeps its previously recorded vector ids instead of the
new chunk ids. -/
theorem c1_auth_error_run_scoped_fallback :
    (isEmbeddingAuthError PyError.authenticationError = true ∧
     isEmbeddingAuthError (PyError.apiStatusError 401) = true ∧
     isEmbeddingAuthError (PyError.apiStatusError 403) = true) ∧
    (∀ (hashBytes : List Nat → String) (splitter : String → List String)
        (st : RunState) (f : SrcFile) (e : PyError) (text : String),
      st.canUseRemoteEmbeddings = true →
      skipDecision false (dictGet st.tracked f.relPath) (hashBytes f.bytes)
        st.vindexIds f.getFails = false →
      f.extractResult = Except.ok text →
      (pyStrip text == "") = false →
      (splitter text).isEmpty = false →
      f.deleteError = none →
      f.addError = some e →
      isEmbeddingAuthError e = true →
      ∃ st', processFile hashBytes splitter false st f = Except.ok st' ∧
        st'.canUseRemoteEmbeddings = false ∧
        dictGet st'.tracked f.relPath =
          some ⟨hashBytes f.bytes,
            ((dictGet st.tracked f.relPath).map (fun en => en.docIds)).getD []⟩ ∧
        dictGet st'.chunkStore f.relPath =
          some (chunkRecords (hashBytes f.bytes) (splitter text))) ∧
    (∀ (hashBytes : List Nat → String) (splitter : String → List String) (force : Bool)
        (st : RunState) (f : SrcFile) (text : String),
      st.canUseRemoteEmbeddings = false →
      skipDecision force (dictGet st.tracked f.relPath) (hashBytes f.bytes)
        st.vindexIds f.getFails = false →
      f.extractResult = Except.ok text →
      (pyStrip text == "") = false →
      ∃ st', processFile hashBytes splitter force st f = Except.ok st' ∧
        st'.canUseRemoteEmbeddings = false ∧
        st'.vindexIds = st.vindexIds ∧
        dictGet st'.tracked f.relPath =
          some ⟨hashBytes f.bytes,
            ((dictGet st.tracked f.relPath).map (fun en => en.docIds)).getD []⟩ ∧
        dictGet st'.chunkStore f.relPath =
          some (chunkRecords (hashBytes f.bytes) (splitter text))) ∧
    (∀ (hashBytes : List Nat → String) (splitter : String → List String) (force : Bool)
        (files : List SrcFile) (st st' : RunState),
      processFiles hashBytes splitter force st files = Except.ok st' →
      st.canUseRemoteEmbeddings = false → st'.canUseRemoteEmbeddings = false) ∧
    (∀ (hashBytes : List Nat → String) (splitter : String → List String)
        (staleDeleteFails : String → Bool) (persistDir : String) (force : Bool)
        (files : List SrcFile) (σ : IngestState),
      (∀ f ∈ files, ∀ e, f.deleteError = some e ∨ f.addError = some e →
        isEmbeddingAuthError e = true) →
      ∃ r, ingestDocuments hashBytes splitter staleDeleteFails persistDir force files σ =
        Except.ok r) := by
  refine ⟨⟨rfl, rfl, rfl⟩, ?_, ?_, ?_, ?_⟩
  · intro hashBytes splitter st f e text hflag hskip hext hblank hchunks hdel hadd hauth
    exact processFile_embed_authFail hashBytes splitter st f e text hflag hskip hext hblank
      hchunks hdel hadd hauth
  · intro hashBytes splitter force st f text hflag hskip hext hblank
    exact processFile_embedding_disabled hashBytes splitter force st f text hflag hskip hext
      hblank
  · intro hashBytes splitter force files st st' h hflag
    exact processFiles_flag_monotone hashBytes splitter force files st st' h hflag
  · intro hashBytes splitter staleDeleteFails persistDir force files σ hall
    obtain ⟨st', hst'⟩ := processFiles_ok_of_auth_only hashBytes splitter force files
      ⟨σ.manifest, σ.chunkStore, σ.vindexIds, [], [], 0, true⟩ hall
    rw [ingestDocuments, hst']
    exact ⟨_, rfl⟩

/-- Witness for C1: a concrete file whose `add_documents` fails with a 401
after the previous ids were deleted; the step succeeds, the flag goes
false, the chunk store is written, and the manifest keeps the previous
ids. -/
theorem c1_auth_error_run_scoped_fallback_witness :
    isEmbeddingAuthError (PyError.apiStatusError 401) = true ∧
    (⟨[("a", ⟨"H0", ["a:H0:0"]⟩)], [], ["a:H0:0"], [], [], 0, true⟩ :
        RunState).canUseRemoteEmbeddings = true ∧
    (∃ st', processFile (fun _ => "H1") (fun t => [t]) false
        ⟨[("a", ⟨"H0", ["a:H0:0"]⟩)], [], ["a:H0:0"], [], [], 0, true⟩
        ⟨"a", [], Except.ok "x", false, none, some (PyError.apiStatusError 401)⟩ =
          Except.ok st' ∧
      st'.canUseRemoteEmbeddings = false ∧
      dictGet st'.tracked
          (⟨"a", [], Except.ok "x", false, none,
            some (PyError.apiStatusError 401)⟩ : SrcFile).relPath =
        some ⟨(fun (_ : List Nat) => "H1")
            (⟨"a", [], Except.ok "x", false, none,
              some (PyError.apiStatusError 401)⟩ : SrcFile).bytes,
          ((dictGet (⟨[("a", ⟨"H0", ["a:H0:0"]⟩)], [], ["a:H0:0"], [], [], 0, true⟩ :
              RunState).tracked "a").map (fun en => en.docIds)).getD []⟩ ∧
      dictGet st'.chunkStore "a" = some (chunkRecords "H1" ["x"])) :=
  ⟨by decide, rfl,
   c1_auth_error_run_scoped_fallback.2.1 (fun _ => "H1") (fun t => [t])
     ⟨[("a", ⟨"H0", ["a:H0:0"]⟩)], [], ["a:H0:0"], [], [], 0, true⟩
     ⟨"a", [], Except.ok "x", false, none, some (PyError.apiStatusError 401)⟩
     (PyError.apiStatusError 401) "x" rfl (by decide) rfl (by decide) (by decide) rfl rfl
     (by decide)⟩

/-! ## C8: stale manifest entries are reconciled -/

theorem staleStep_tracked (sdf : String → Bool) (acc : RunState) (q : String) :
    (staleStep sdf acc q).tracked = dictErase acc.tracked q := by
  rw [staleStep]
  split <;> rfl

theorem staleStep_chunkStore (sdf : String → Bool) (acc : RunState) (q : String) :
    (staleStep sdf acc q).chunkStore = dictErase acc.chunkStore q := by
  rw [staleStep]
  split <;> rfl

theorem staleStep_indexedFiles (sdf : String → Bool) (acc : RunState) (q : String) :
    (staleStep sdf acc q).indexedFiles = acc.indexedFiles := by
  rw [staleStep]
  split <;> rfl

theorem staleStep_skippedFiles (sdf : String → Bool) (acc : RunState) (q : String) :
    (staleStep sdf acc q).skippedFiles = acc.skippedFiles := by
  rw [staleStep]
  split <;> rfl

theorem staleStep_totalChunksAdded (sdf : String → Bool) (acc : RunState) (q : String) :
    (staleStep sdf acc q).totalChunksAdded = acc.totalChunksAdded := by
  rw [staleStep]
  split <;> rfl

theorem staleFold_preserves_none (sdf : String → Bool) :
    ∀ (paths : List String) (st : RunState) (p : String),
      dictGet st.tracked p = none → dictGet st.chunkStore p = none →
      dictGet (paths.foldl (staleStep sdf) st).tracked p = none ∧
      dictGet (paths.foldl (staleStep sdf) st).chunkStore p = none := by
  intro paths
  induction paths with
  | nil => intro st p h1 h2; exact ⟨h1, h2⟩
  | cons q paths ih =>
    intro st p h1 h2
    rw [List.foldl_cons]
    exact ih (staleStep sdf st q) p
      (by rw [staleStep_tracked]; exact dictGet_erase_none _ q p h1)
      (by rw [staleStep_chunkStore]; exact dictGet_erase_none _ q p h2)

theorem staleFold_erases (sdf : String → Bool) :
    ∀ (paths : List String) (st : RunState) (p : String), p ∈ paths →
      dictGet (paths.foldl (staleStep sdf) st).tracked p = none ∧
      dictGet (paths.foldl (staleStep sdf) st).chunkStore p = none := by
  intro paths
  induction paths with
  | nil => intro st p h; cases h
  | cons q paths ih =>
    intro st p h
    rw [List.foldl_cons]
    by_cases hpq : p = q
    · subst hpq
      exact staleFold_preserves_none sdf paths (staleStep sdf st p) p
        (by rw [staleStep_tracked]; exact dictGet_erase_self _ p)
        (by rw [staleStep_chunkStore]; exact dictGet_erase_self _ p)
    · rcases List.mem_cons.mp h with he | hm
      · exact absurd he hpq
      · exact ih (staleStep sdf st q) p hm

theorem processFile_tracked_ne_none (hashBytes : List Nat → String)
    (splitter : String → List String) (force : Bool) (st : RunState) (f : SrcFile)
    (st' : RunState) (p : String)
    (h : processFile hashBytes splitter force st f = Except.ok st')
    (hp : dictGet st.tracked p ≠ none) : dictGet st'.tracked p ≠ none := by
  rw [processFile] at h
  by_cases hskip : skipDecision force (dictGet st.tracked f.relPath) (hashBytes f.bytes)
      st.vindexIds f.getFails
  · simp only [hskip, if_true] at h
    cases h
    exact hp
  · simp only [hskip, Bool.false_eq_true, if_false] at h
    rw [processFileBody] at h
    cases hext : f.extractResult with
    | error err =>
      rw [hext] at h
      cases h
      exact dictGet_insert_ne_none _ _ _ _ hp
    | ok text =>
      rw [hext] at h
      by_cases hblank : (pyStrip text == "") = true
      · simp only [hblank, if_true] at h
        cases h
        exact dictGet_insert_ne_none _ _ _ _ hp
      · simp only [Bool.not_eq_true] at hblank
        simp only [hblank, Bool.false_eq_true, if_false] at h
        by_cases hembed : (!(splitter text).isEmpty && st.canUseRemoteEmbeddings) = true
        · simp only [hembed, if_true] at h
          by_cases hprev :
              (((dictGet st.tracked f.relPath).map (fun en => en.docIds)).getD []).isEmpty
          · simp only [hprev, if_true] at h
            cases hadd : f.addError with
            | none =>
              rw [hadd] at h
              cases h
              exact dictGet_insert_ne_none _ _ _ _ hp
            | some e =>
              rw [hadd] at h
              by_cases hauth : isEmbeddingAuthError e = true
              · simp only [hauth, if_true] at h
                cases h
                exact dictGet_insert_ne_none _ _ _ _ hp
              · simp only [Bool.not_eq_true] at hauth
                simp only [hauth, Bool.false_eq_true, if_false] at h
                cases h
          · simp only [hprev, Bool.false_eq_true, if_false] at h
            cases hdel : f.deleteError with
            | some e =>
              rw [hdel] at h
              by_cases hauth : isEmbeddingAuthError e = true
              · simp only [hauth, if_true] at h
                cases h
                exact dictGet_insert_ne_none _ _ _ _ hp
              · simp only [Bool.not_eq_true] at hauth
                simp only [hauth, Bool.false_eq_true, if_false] at h
                cases h
            | none =>
              rw [hdel] at h
              cases hadd : f.addError with
              | none =>
                rw [hadd] at h
                cases h
                exact dictGet_insert_ne_none _ _ _ _ hp
              | some e =>
                rw [hadd] at h
                by_cases hauth : isEmbeddingAuthError e = true
                · simp only [hauth, if_true] at h
                  cases h
                  exact dictGet_insert_ne_none _ _ _ _ hp
                · simp only [Bool.not_eq_true] at hauth
                  simp only [hauth, Bool.false_eq_true, if_false] at h
                  cases h
        · simp only [Bool.not_eq_true] at hembed
          simp only [hembed, Bool.false_eq_true, if_false] at h
          cases h
          exact dictGet_insert_ne_none _ _ _ _ hp

theorem processFiles_tracked_ne_none (hashBytes : List Nat → String)
    (splitter : String → List String) (force : Bool) :
    ∀ (files : List SrcFile) (st st' : RunState) (p : String),
      processFiles hashBytes splitter force st files = Except.ok st' →
      dictGet st.tracked p ≠ none → dictGet st'.tracked p ≠ none := by
  intro files
  induction files with
  | nil =>
    intro st st' p h hp
    rw [processFiles] at h
    cases h
    exact hp
  | cons f fs ih =>
    intro st st' p h hp
    rw [processFiles] at h
    cases hpf : processFile hashBytes splitter force st f with
    | error e => rw [hpf] at h; cases h
    | ok st1 =>
      rw [hpf] at h
      exact ih st1 st' p h
        (processFile_tracked_ne_none hashBytes splitter force st f st1 p hpf hp)

theorem staleFold_agnostic (sdf₁ sdf₂ : String → Bool) :
    ∀ (paths : List String) (st₁ st₂ : RunState),
      st₁.tracked = st₂.tracked → st₁.chunkStore = st₂.chunkStore →
      st₁.indexedFiles = st₂.indexedFiles → st₁.skippedFiles = st₂.skippedFiles →
      st₁.totalChunksAdded = st₂.totalChunksAdded →
      (paths.foldl (staleStep sdf₁) st₁).tracked = (paths.foldl (staleStep sdf₂) st₂).tracked ∧
      (paths.foldl (staleStep sdf₁) st₁).chunkStore =
        (paths.foldl (staleStep sdf₂) st₂).chunkStore ∧
      (paths.foldl (staleStep sdf₁) st₁).indexedFiles =
        (paths.foldl (staleStep sdf₂) st₂).indexedFiles ∧
      (paths.foldl (staleStep sdf₁) st₁).skippedFiles =
        (paths.foldl (staleStep sdf₂) st₂).skippedFiles ∧
      (paths.foldl (staleStep sdf₁) st₁).totalChunksAdded =
        (paths.foldl (staleStep sdf₂) st₂).totalChunksAdded := by
  intro paths
  induction paths with
  | nil =>
    intro st₁ st₂ h1 h2 h3 h4 h5
    exact ⟨h1, h2, h3, h4, h5⟩
  | cons q paths ih =>
    intro st₁ st₂ h1 h2 h3 h4 h5
    rw [List.foldl_cons, List.foldl_cons]
    exact ih (staleStep sdf₁ st₁ q) (staleStep sdf₂ st₂ q)
      (by rw [staleStep_tracked, staleStep_tracked, h1])
      (by rw [staleStep_chunkStore, staleStep_chunkStore, h2])
      (by rw [staleStep_indexedFiles, staleStep_indexedFiles, h3])
      (by rw [staleStep_skippedFiles, staleStep_skippedFiles, h4])
      (by rw [staleStep_totalChunksAdded, staleStep_totalChunksAdded, h5])

/-- C8: After a run of `ingest_documents`, every manifest entry whose path
was not discovered in that run's directory scan is removed from both the
persisted manifest and the persisted chunk store; the best-effort vector
deletes cannot change that outcome — whether each stale
`vectorstore.delete` succeeds or raises affects neither the response nor
the saved manifest and chunk store, and never aborts the run. -/
theorem c8_stale_entries_removed :
    (∀ (hashBytes : List Nat → String) (splitter : String → List String)
        (staleDeleteFails : String → Bool) (persistDir : String) (force : Bool)
        (files : List SrcFile) (σ : IngestState) (resp : IngestResponse) (σ' : IngestState),
      ingestDocuments hashBytes splitter staleDeleteFails persistDir force files σ =
        Except.ok (resp, σ') →
      ∀ p, dictGet σ.manifest p ≠ none → p ∉ files.map (fun f => f.relPath) →
        dictGet σ'.manifest p = none ∧ dictGet σ'.chunkStore p = none) ∧
    (∀ (hashBytes : List Nat → String) (splitter : String → List String)
        (sdf₁ sdf₂ : String → Bool) (persistDir : String) (force : Bool)
        (files : List SrcFile) (σ : IngestState),
      Except.map (fun r => (r.1, r.2.manifest, r.2.chunkStore))
          (ingestDocuments hashBytes splitter sdf₁ persistDir force files σ) =
        Except.map (fun r => (r.1, r.2.manifest, r.2.chunkStore))
          (ingestDocuments hashBytes splitter sdf₂ persistDir force files σ)) := by
  constructor
  · intro hashBytes splitter staleDeleteFails persistDir force files σ resp σ' h p hp hnd
    rw [ingestDocuments] at h
    cases hpf : processFiles hashBytes splitter force
        ⟨σ.manifest, σ.chunkStore, σ.vindexIds, [], [], 0, true⟩ files with
    | error e => rw [hpf] at h; cases h
    | ok st1 =>
      rw [hpf] at h
      simp only [Except.ok.injEq, Prod.mk.injEq] at h
      obtain ⟨_, hσ'⟩ := h
      have hp1 : dictGet st1.tracked p ≠ none :=
        processFiles_tracked_ne_none hashBytes splitter force files
          ⟨σ.manifest, σ.chunkStore, σ.vindexIds, [], [], 0, true⟩ st1 p hpf hp
      have hmem : p ∈ (dictKeys st1.tracked).filter
          (fun q => !((files.map (fun f => f.relPath)).contains q)) := by
        apply List.mem_filter.mpr
        constructor
        · by_contra hcon
          exact hp1 ((dictGet_eq_none_iff st1.tracked p).mpr hcon)
        · simp [hnd]
      have := staleFold_erases staleDeleteFails
        ((dictKeys st1.tracked).filter
          (fun q => !((files.map (fun f => f.relPath)).contains q)))
        st1 p hmem
      rw [← hσ']
      simp only [reconcileStale]
      exact this
  · intro hashBytes splitter sdf₁ sdf₂ persistDir force files σ
    rw [ingestDocuments, ingestDocuments]
    cases hpf : processFiles hashBytes splitter force
        ⟨σ.manifest, σ.chunkStore, σ.vindexIds, [], [], 0, true⟩ files with
    | error e => rfl
    | ok st1 =>
      have hag := staleFold_agnostic sdf₁ sdf₂
        ((dictKeys st1.tracked).filter
          (fun q => !((files.map (fun f => f.relPath)).contains q)))
        st1 st1 rfl rfl rfl rfl rfl
      simp only [reconcileStale, Except.map]
      rw [hag.1, hag.2.1, hag.2.2.1, hag.2.2.2.1, hag.2.2.2.2]

/-- Witness for C8: a manifest entry for a file absent from the (empty)
discovered set is dropped from both saved stores. -/
theorem c8_stale_entries_removed_witness :
    ingestDocuments (fun _ => "H") (fun t => [t]) (fun _ => false) "d" false []
        ⟨[("old", ⟨"H", ["i"]⟩)], [("old", [⟨"x", "H", 0⟩])], ["i"]⟩ =
      Except.ok (⟨[], [], 0, "chaty", "d"⟩, (⟨[], [], []⟩ : IngestState)) ∧
    dictGet [("old", (⟨"H", ["i"]⟩ : ManifestEntry))] "old" ≠ none ∧
    (dictGet (⟨[], [], []⟩ : IngestState).manifest "old" = none ∧
      dictGet (⟨[], [], []⟩ : IngestState).chunkStore "old" = none) :=
  ⟨by decide, by decide,
   c8_stale_entries_removed.1 (fun _ => "H") (fun t => [t]) (fun _ => false) "d" false []
     ⟨[("old", ⟨"H", ["i"]⟩)], [("old", [⟨"x", "H", 0⟩])], ["i"]⟩
     ⟨[], [], 0, "chaty", "d"⟩ ⟨[], [], []⟩ (by decide) "old" (by decide) (by decide)⟩

/-! ## C3: ingesting an unchanged directory twice is idempotent -/

theorem skipDecision_none_entry (force : Bool) (fileHash : String)
    (vindexIds : List String) (getFails : Bool) :
    skipDecision force none fileHash vindexIds getFails = false := by
  simp [skipDecision]

theorem skipDecision_empty_ids (force : Bool) (entry : ManifestEntry) (fileHash : String)
    (vindexIds : List String) (getFails : Bool) (h : entry.docIds = []) :
    skipDecision force (some entry) fileHash vindexIds getFails = false := by
  rw [skipDecision]
  have : ((some entry).map (fun e => e.docIds)).getD [] = [] := by simp [h]
  rw [this]
  simp [hasPersistedVectors]

theorem hasPersistedVectors_of_sub (vindexIds docIds : List String)
    (hne : docIds ≠ []) (hsub : ∀ id ∈ docIds, id ∈ vindexIds) :
    hasPersistedVectors vindexIds false docIds = true := by
  cases docIds with
  | nil => exact absurd rfl hne
  | cons x xs =>
    rw [hasPersistedVectors]
    simp only [List.isEmpty_cons, Bool.false_eq_true, if_false]
    have hx : x ∈ vindexIds := hsub x (List.mem_cons_self x xs)
    have : (x :: xs).take 3 = x :: xs.take 2 := rfl
    rw [this]
    simp only [List.filter]
    have hcx : vindexIds.contains x = true := by simpa using hx
    rw [hcx]
    simp

theorem skipDecision_unchanged (entry : ManifestEntry) (fileHash : String)
    (vindexIds : List String)
    (hsha : entry.sha256 = fileHash) (hne : entry.docIds ≠ [])
    (hsub : ∀ id ∈ entry.docIds, id ∈ vindexIds) :
    skipDecision false (some entry) fileHash vindexIds false = true := by
  rw [skipDecision]
  have h1 : ((some entry).map (fun e => e.sha256)) == some fileHash := by
    simp [hsha]
  have h2 : ((some entry).map (fun e => e.docIds)).getD [] = entry.docIds := by simp
  rw [h2, hasPersistedVectors_of_sub vindexIds entry.docIds hne hsub]
  simp only [Bool.not_false, Bool.true_and, h1, Bool.and_self]

theorem chunkDocIds_ne_nil (relPath fileHash : String) (n : Nat) (hn : n ≠ 0) :
    chunkDocIds relPath fileHash n ≠ [] := by
  rw [chunkDocIds]
  simp [hn, List.range_eq_nil]

/-- The per-file postcondition a clean (fully embedded) run establishes:
the manifest entry carries the file's current hash — an empty id list for
extraction failures and blank files, and for a non-blank file exactly its
chunk ids, all present in the vector index. -/
def goodEntry (hashBytes : List Nat → String) (splitter : String → List String)
    (tracked : Manifest) (vindexIds : List String) (f : SrcFile) : Prop :=
  (∀ err, f.extractResult = Except.error err →
    dictGet tracked f.relPath = some ⟨hashBytes f.bytes, []⟩) ∧
  (∀ text, f.extractResult = Except.ok text → (pyStrip text == "") = true →
    dictGet tracked f.relPath = some ⟨hashBytes f.bytes, []⟩) ∧
  (∀ text, f.extractResult = Except.ok text → (pyStrip text == "") = false →
    dictGet tracked f.relPath =
      some ⟨hashBytes f.bytes,
        chunkDocIds f.relPath (hashBytes f.bytes) (splitter text).length⟩ ∧
    splitter text ≠ [] ∧
    (∀ id ∈ chunkDocIds f.relPath (hashBytes f.bytes) (splitter text).length,
      id ∈ vindexIds))

theorem goodEntry_mono (hashBytes : List Nat → String) (splitter : String → List String)
    (tracked tracked' : Manifest) (vindexIds vindexIds' : List String) (f : SrcFile)
    (htr : dictGet tracked' f.relPath = dictGet tracked f.relPath)
    (hvi : ∀ id ∈ vindexIds, id ∈ vindexIds')
    (h : goodEntry hashBytes splitter tracked vindexIds f) :
    goodEntry hashBytes splitter tracked' vindexIds' f := by
  refine ⟨fun err he => htr.trans (h.1 err he),
    fun text he hb2 => htr.trans (h.2.1 text he hb2),
    fun text he hb2 => ?_⟩
  obtain ⟨h1, h2, h3⟩ := h.2.2 text he hb2
  exact ⟨htr.trans h1, h2, fun id hid => hvi id (h3 id hid)⟩

theorem run1_processFile (hashBytes : List Nat → String) (splitter : String → List String)
    (hsplit : ∀ t, (pyStrip t == "") = false → splitter t ≠ [])
    (st : RunState) (f : SrcFile)
    (hflag : st.canUseRemoteEmbeddings = true)
    (hnd : (dictKeys st.tracked).Nodup)
    (hfresh : dictGet st.tracked f.relPath = none)
    (hadd : f.addError = none) :
    ∃ st', processFile hashBytes splitter false st f = Except.ok st' ∧
      st'.canUseRemoteEmbeddings = true ∧
      (dictKeys st'.tracked).Nodup ∧
      goodEntry hashBytes splitter st'.tracked st'.vindexIds f ∧
      (∀ p, p ≠ f.relPath → dictGet st'.tracked p = dictGet st.tracked p) ∧
      (∀ id ∈ st.vindexIds, id ∈ st'.vindexIds) := by
  have hprev : ((dictGet st.tracked f.relPath).map (fun e => e.docIds)).getD [] = [] := by
    rw [hfresh]
    rfl
  have hskip : skipDecision false (dictGet st.tracked f.relPath) (hashBytes f.bytes)
      st.vindexIds f.getFails = false := by
    rw [hfresh]
    exact skipDecision_none_entry false (hashBytes f.bytes) st.vindexIds f.getFails
  rw [processFile]
  simp only [hskip, Bool.false_eq_true, if_false]
  rw [processFileBody]
  cases hext : f.extractResult with
  | error err =>
    refine ⟨_, rfl, hflag, ?_, ?_, ?_, ?_⟩
    · exact dictKeys_insert_nodup st.tracked f.relPath _ hnd
    · refine ⟨fun err2 he => ?_, fun text he hb2 => ?_, fun text he hb2 => ?_⟩
      · rw [hprev]
        exact dictGet_insert_self st.tracked f.relPath _
      · rw [hext] at he
        exact Except.noConfusion he
      · rw [hext] at he
        exact Except.noConfusion he
    · intro p hp
      exact dictGet_insert_ne st.tracked f.relPath p _ hp
    · intro id hid
      exact hid
  | ok text =>
    by_cases hblank : (pyStrip text == "") = true
    · simp only [hblank, if_true]
      refine ⟨_, rfl, hflag, ?_, ?_, ?_, ?_⟩
      · exact dictKeys_insert_nodup st.tracked f.relPath _ hnd
      · refine ⟨fun err2 he => ?_, fun text2 he hb2 => ?_, fun text2 he hb2 => ?_⟩
        · rw [hext] at he
          exact Except.noConfusion he
        · exact dictGet_insert_self st.tracked f.relPath _
        · rw [hext] at he
          have htt : text = text2 := by injection he
          rw [← htt] at hb2
          rw [hblank] at hb2
          exact Bool.noConfusion hb2
      · intro p hp
        exact dictGet_insert_ne st.tracked f.relPath p _ hp
      · intro id hid
        exact hid
    · simp only [Bool.not_eq_true] at hblank
      have hch : splitter text ≠ [] := hsplit text hblank
      have hche : (splitter text).isEmpty = false := by
        cases hc : (splitter text).isEmpty
        · rfl
        · exact absurd (List.isEmpty_iff.mp hc) hch
      simp only [hblank, Bool.false_eq_true, if_false, hche, hflag, Bool.not_false,
        Bool.and_self, if_true, hprev, List.isEmpty_nil, hadd]
      refine ⟨_, rfl, rfl, ?_, ?_, ?_, ?_⟩
      · exact dictKeys_insert_nodup st.tracked f.relPath _ hnd
      · refine ⟨fun err2 he => ?_, fun text2 he hb2 => ?_, fun text2 he hb2 => ?_⟩
        · rw [hext] at he
          exact Except.noConfusion he
        · rw [hext] at he
          have htt : text = text2 := by injection he
          rw [← htt] at hb2
          rw [hblank] at hb2
          exact Bool.noConfusion hb2
        · rw [hext] at he
          have htt : text = text2 := by injection he
          rw [← htt]
          refine ⟨dictGet_insert_self st.tracked f.relPath _, hch, ?_⟩
          intro id hid
          exact List.mem_append.mpr (Or.inr hid)
      · intro p hp
        exact dictGet_insert_ne st.tracked f.relPath p _ hp
      · intro id hid
        exact List.mem_append.mpr (Or.inl hid)

theorem run1_processFiles (hashBytes : List Nat → String) (splitter : String → List String)
    (hsplit : ∀ t, (pyStrip t == "") = false → splitter t ≠ []) :
    ∀ (files : List SrcFile) (st : RunState),
      st.canUseRemoteEmbeddings = true →
      (dictKeys st.tracked).Nodup →
      (∀ f ∈ files, dictGet st.tracked f.relPath = none) →
      ((files.map (fun f => f.relPath)).Nodup) →
      (∀ f ∈ files, f.addError = none) →
      ∃ st', processFiles hashBytes splitter false st files = Except.ok st' ∧
        st'.canUseRemoteEmbeddings = true ∧
        (dictKeys st'.tracked).Nodup ∧
        (∀ f ∈ files, goodEntry hashBytes splitter st'.tracked st'.vindexIds f) ∧
        (∀ p, (∀ f ∈ files, p ≠ f.relPath) → dictGet st'.tracked p = dictGet st.tracked p) ∧
        (∀ id ∈ st.vindexIds, id ∈ st'.vindexIds) := by
  intro files
  induction files with
  | nil =>
    intro st hflag hnd _ _ _
    refine ⟨st, rfl, hflag, hnd, ?_, ?_, ?_⟩
    · intro f hf
      cases hf
    · intro p _
      rfl
    · intro id hid
      exact hid
  | cons f fs ih =>
    intro st hflag hnd hfresh hpathnd hclean
    obtain ⟨st1, hst1, hflag1, hnd1, hgood1, hpres1, hvi1⟩ :=
      run1_processFile hashBytes splitter hsplit st f hflag hnd
        (hfresh f (List.mem_cons_self f fs))
        (hclean f (List.mem_cons_self f fs))
    have hpathnd' : (fs.map (fun g => g.relPath)).Nodup := by
      simp only [List.map_cons, List.nodup_cons] at hpathnd
      exact hpathnd.2
    have hnotin : ∀ g ∈ fs, f.relPath ≠ g.relPath := by
      intro g hg heq
      simp only [List.map_cons, List.nodup_cons] at hpathnd
      exact hpathnd.1 (heq ▸ List.mem_map_of_mem (fun x => x.relPath) hg)
    have hfresh1 : ∀ g ∈ fs, dictGet st1.tracked g.relPath = none := by
      intro g hg
      rw [hpres1 g.relPath (fun heq => hnotin g hg heq.symm)]
      exact hfresh g (List.mem_cons_of_mem f hg)
    obtain ⟨st2, hst2, hflag2, hnd2, hgood2, hpres2, hvi2⟩ :=
      ih st1 hflag1 hnd1 hfresh1 hpathnd' (fun g hg => hclean g (List.mem_cons_of_mem f hg))
    refine ⟨st2, ?_, hflag2, hnd2, ?_, ?_, ?_⟩
    · rw [processFiles, hst1]
      exact hst2
    · intro g hg
      rcases List.mem_cons.mp hg with he | hm
      · subst he
        refine goodEntry_mono hashBytes splitter st1.tracked st2.tracked
          st1.vindexIds st2.vindexIds g ?_ hvi2 hgood1
        exact hpres2 g.relPath (fun h hh => hnotin h hh)
      · exact hgood2 g hm
    · intro p hp
      rw [hpres2 p (fun g hg => hp g (List.mem_cons_of_mem f hg)),
        hpres1 p (hp f (List.mem_cons_self f fs))]
    · intro id hid
      exact hvi2 id (hvi1 id hid)

theorem run2_processFile (hashBytes : List Nat → String) (splitter : String → List String)
    (st : RunState) (f : SrcFile)
    (hnd : (dictKeys st.tracked).Nodup)
    (hget : f.getFails = false)
    (hgood : goodEntry hashBytes splitter st.tracked st.vindexIds f) :
    ∃ st', processFile hashBytes splitter false st f = Except.ok st' ∧
      st'.tracked = st.tracked ∧ st'.vindexIds = st.vindexIds ∧
      st'.indexedFiles = st.indexedFiles ∧
      st'.totalChunksAdded = st.totalChunksAdded := by
  rw [processFile]
  cases hext : f.extractResult with
  | error err =>
    have hentry := hgood.1 err hext
    have hprev : ((dictGet st.tracked f.relPath).map (fun e => e.docIds)).getD [] = [] := by
      rw [hentry]
      rfl
    have hskip : skipDecision false (dictGet st.tracked f.relPath) (hashBytes f.bytes)
        st.vindexIds f.getFails = false := by
      rw [hentry]
      exact skipDecision_empty_ids false _ _ _ _ rfl
    simp only [hskip, Bool.false_eq_true, if_false]
    rw [processFileBody, hext]
    refine ⟨_, rfl, ?_, rfl, rfl, rfl⟩
    rw [hprev]
    exact dictInsert_same st.tracked f.relPath _ hnd hentry
  | ok text =>
    by_cases hblank : (pyStrip text == "") = true
    · have hentry := hgood.2.1 text hext hblank
      have hskip : skipDecision false (dictGet st.tracked f.relPath) (hashBytes f.bytes)
          st.vindexIds f.getFails = false := by
        rw [hentry]
        exact skipDecision_empty_ids false _ _ _ _ rfl
      simp only [hskip, Bool.false_eq_true, if_false]
      rw [processFileBody, hext]
      simp only [hblank, if_true]
      refine ⟨_, rfl, ?_, rfl, rfl, rfl⟩
      exact dictInsert_same st.tracked f.relPath _ hnd hentry
    · simp only [Bool.not_eq_true] at hblank
      obtain ⟨hentry, hch, hsub⟩ := hgood.2.2 text hext hblank
      have hlen : (splitter text).length ≠ 0 := by
        simp [List.length_eq_zero, hch]
      have hskip : skipDecision false (dictGet st.tracked f.relPath) (hashBytes f.bytes)
          st.vindexIds f.getFails = true := by
        rw [hentry, hget]
        exact skipDecision_unchanged _ _ _ rfl
          (chunkDocIds_ne_nil f.relPath (hashBytes f.bytes) (splitter text).length hlen) hsub
      simp only [hskip, if_true]
      exact ⟨_, rfl, rfl, rfl, rfl, rfl⟩

theorem run2_processFiles (hashBytes : List Nat → String) (splitter : String → List String) :
    ∀ (files : List SrcFile) (st : RunState),
      (dictKeys st.tracked).Nodup →
      (∀ f ∈ files, f.getFails = false) →
      (∀ f ∈ files, goodEntry hashBytes splitter st.tracked st.vindexIds f) →
      ∃ st', processFiles hashBytes splitter false st files = Except.ok st' ∧
        st'.tracked = st.tracked ∧ st'.vindexIds = st.vindexIds ∧
        st'.indexedFiles = st.indexedFiles ∧
        st'.totalChunksAdded = st.totalChunksAdded := by
  intro files
  induction files with
  | nil =>
    intro st hnd _ _
    exact ⟨st, rfl, rfl, rfl, rfl, rfl⟩
  | cons f fs ih =>
    intro st hnd hget hgood
    obtain ⟨st1, hst1, htr1, hvi1, hidx1, htot1⟩ :=
      run2_processFile hashBytes splitter st f hnd (hget f (List.mem_cons_self f fs))
        (hgood f (List.mem_cons_self f fs))
    obtain ⟨st2, hst2, htr2, hvi2, hidx2, htot2⟩ :=
      ih st1 (htr1 ▸ hnd) (fun g hg => hget g (List.mem_cons_of_mem f hg))
        (fun g hg =>
          goodEntry_mono hashBytes splitter st.tracked st1.tracked st.vindexIds st1.vindexIds g
            (by rw [htr1]) (by rw [hvi1]; exact fun id hid => hid)
            (hgood g (List.mem_cons_of_mem f hg)))
    refine ⟨st2, ?_, htr2.trans htr1, hvi2.trans hvi1, hidx2.trans hidx1, htot2.trans htot1⟩
    rw [processFiles, hst1]
    exact hst2

theorem ingestDocuments_of_no_stale (hashBytes : List Nat → String)
    (splitter : String → List String) (staleDeleteFails : String → Bool)
    (persistDir : String) (force : Bool) (files : List SrcFile) (σ : IngestState)
    (st' : RunState)
    (h : processFiles hashBytes splitter force
      ⟨σ.manifest, σ.chunkStore, σ.vindexIds, [], [], 0, true⟩ files = Except.ok st')
    (hmiss : (dictKeys st'.tracked).filter
      (fun p => !((files.map (fun f => f.relPath)).contains p)) = []) :
    ingestDocuments hashBytes splitter staleDeleteFails persistDir force files σ =
      Except.ok
        (⟨st'.indexedFiles, st'.skippedFiles, st'.totalChunksAdded, COLLECTION_NAME, persistDir⟩,
         ⟨st'.tracked, st'.chunkStore, st'.vindexIds⟩) := by
  rw [ingestDocuments, h]
  simp only [reconcileStale, hmiss, List.foldl_nil]

/-- C3: Ingestion is idempotent: running `ingest_documents` twice over the
same unchanged source directory with `force=false`, where the first run
succeeded (starting from a fresh manifest, with embedding and the
presence check working), yields `indexed_files = []` and
`total_chunks_added = 0` on the second run; and a file is skipped iff it
is not forced, its content hash is unchanged, and a sample of its
recorded vector identifiers is confirmed present in the Vector Index
(the second conjunct is the skip rule of line 138, definitionally). -/
theorem c3_ingest_idempotent :
    (∀ (hashBytes : List Nat → String) (splitter : String → List String)
        (staleDeleteFails : String → Bool) (persistDir : String)
        (files : List SrcFile) (σ₀ : IngestState),
      σ₀.manifest = [] →
      (∀ t, (pyStrip t == "") = false → splitter t ≠ []) →
      (∀ f ∈ files, f.addError = none ∧ f.getFails = false) →
      (files.map (fun f => f.relPath)).Nodup →
      ∃ resp₁ σ₁ resp₂ σ₂,
        ingestDocuments hashBytes splitter staleDeleteFails persistDir false files σ₀ =
          Except.ok (resp₁, σ₁) ∧
        ingestDocuments hashBytes splitter staleDeleteFails persistDir false files σ₁ =
          Except.ok (resp₂, σ₂) ∧
        resp₂.indexedFiles = [] ∧ resp₂.totalChunksAdded = 0) ∧
    (∀ (force : Bool) (previous : Option ManifestEntry) (fileHash : String)
        (vindexIds : List String) (getFails : Bool),
      skipDecision force previous fileHash vindexIds getFails =
        (!force && ((previous.map (fun e => e.sha256)) == some fileHash) &&
          hasPersistedVectors vindexIds getFails
            ((previous.map (fun e => e.docIds)).getD []))) := by
  constructor
  · intro hashBytes splitter staleDeleteFails persistDir files σ₀ hman hsplit hclean hnd
    have hnd0 : (dictKeys σ₀.manifest).Nodup := by
      rw [hman]
      exact List.nodup_nil
    have hfresh0 : ∀ f ∈ files, dictGet σ₀.manifest f.relPath = none := by
      intro f _
      rw [hman]
      rfl
    obtain ⟨st1, hst1, hflag1, hnd1, hgood1, hpres1, hvi1⟩ :=
      run1_processFiles hashBytes splitter hsplit files
        ⟨σ₀.manifest, σ₀.chunkStore, σ₀.vindexIds, [], [], 0, true⟩
        rfl hnd0 hfresh0 hnd (fun f hf => (hclean f hf).1)
    have hkeys1 : ∀ p ∈ dictKeys st1.tracked,
        (files.map (fun f => f.relPath)).contains p = true := by
      intro p hp
      by_contra hcc
      have hforall : ∀ f ∈ files, p ≠ f.relPath := by
        intro f hf heq
        apply hcc
        have hmem : p ∈ files.map (fun f => f.relPath) :=
          heq ▸ List.mem_map_of_mem (fun x => x.relPath) hf
        simpa using hmem
      have hp1 : dictGet st1.tracked p = none := by
        rw [hpres1 p hforall]
        show dictGet σ₀.manifest p = none
        rw [hman]
        rfl
      exact ((dictGet_eq_none_iff st1.tracked p).mp hp1) hp
    have hmiss1 : (dictKeys st1.tracked).filter
        (fun p => !((files.map (fun f => f.relPath)).contains p)) = [] := by
      apply List.filter_eq_nil_iff.mpr
      intro p hp
      rw [hkeys1 p hp]
      simp
    have hrun1 := ingestDocuments_of_no_stale hashBytes splitter staleDeleteFails persistDir
      false files σ₀ st1 hst1 hmiss1
    obtain ⟨st2, hst2, htr2, hvi2, hidx2, htot2⟩ :=
      run2_processFiles hashBytes splitter files
        ⟨st1.tracked, st1.chunkStore, st1.vindexIds, [], [], 0, true⟩
        hnd1 (fun f hf => (hclean f hf).2) hgood1
    have hmiss2 : (dictKeys st2.tracked).filter
        (fun p => !((files.map (fun f => f.relPath)).contains p)) = [] := by
      rw [show st2.tracked = st1.tracked from htr2]
      exact hmiss1
    have hrun2 := ingestDocuments_of_no_stale hashBytes splitter staleDeleteFails persistDir
      false files ⟨st1.tracked, st1.chunkStore, st1.vindexIds⟩ st2 hst2 hmiss2
    exact ⟨_, _, _, _, hrun1, hrun2, hidx2, htot2⟩
  · intro force previous fileHash vindexIds getFails
    rfl

/-- Witness for C3: a one-file directory ingested twice from a fresh
state; the second run indexes nothing and adds no chunks. -/
theorem c3_ingest_idempotent_witness :
    (([⟨"ingest/a.txt", [104], Except.ok "hello", false, none, none⟩] :
        List SrcFile).map (fun f => f.relPath)).Nodup ∧
    (∃ resp₁ σ₁ resp₂ σ₂,
      ingestDocuments (fun _ => "H") (fun t => [t]) (fun _ => false) "d" false
          [⟨"ingest/a.txt", [104], Except.ok "hello", false, none, none⟩] ⟨[], [], []⟩ =
        Except.ok (resp₁, σ₁) ∧
      ingestDocuments (fun _ => "H") (fun t => [t]) (fun _ => false) "d" false
          [⟨"ingest/a.txt", [104], Except.ok "hello", false, none, none⟩] σ₁ =
        Except.ok (resp₂, σ₂) ∧
      resp₂.indexedFiles = [] ∧ resp₂.totalChunksAdded = 0) :=
  ⟨by decide,
   c3_ingest_idempotent.1 (fun _ => "H") (fun t => [t]) (fun _ => false) "d"
     [⟨"ingest/a.txt", [104], Except.ok "hello", false, none, none⟩] ⟨[], [], []⟩
     rfl (fun t _ => List.cons_ne_nil t []) (by decide) (by decide)⟩

/-! ## Retrieval (`app/rag/chain.py` lines 55–74)

The Chroma similarity search and the `BM25Retriever` are external
collaborators: the search outcome for the call under consideration is an
oracle value, and the BM25 ranker is an oracle function receiving the
corpus, the question, and `k` (the code sets `retriever.k = k` before
invoking it). -/

structure RDoc where
  pageContent : String
  source : String
  fileSha256 : String
  chunkIndex : Nat
deriving DecidableEq, Repr

/-- `load_chunk_documents` (ingest.py lines 56–67): flatten the chunk
store, in store order, into documents carrying source, file hash and
chunk index metadata. -/
def loadChunkDocuments : ChunkStore → List RDoc
  | [] => []
  | kv :: rest =>
      kv.2.map (fun c => ⟨c.pageContent, kv.1, c.fileSha256, c.chunkIndex⟩) ++
        loadChunkDocuments rest

/-- `_retrieve_with_bm25` (chain.py lines 55–61): empty corpus
short-circuits to `[]`; otherwise the external ranker produces the
top-`k` documents and each is paired with score `0.0`. -/
def retrieveWithBM25 (bm25Rank : List RDoc → String → Nat → List RDoc)
    (store : ChunkStore) (question : String) (k : Nat) : List (RDoc × Rat) :=
  let documents := loadChunkDocuments store
  if documents.isEmpty then []
  else (bm25Rank documents question k).map (fun d => (d, 0))

/-- The outcome of `vectorstore.similarity_search_with_score` for one
call. -/
inductive SearchOutcome where
  | results (rs : List (RDoc × Rat))
  | raises (e : PyError)
deriving Repr

/-- `_retrieve_documents` (chain.py lines 64–74): non-empty similarity
results are returned as is; empty results fall back to BM25; an
auth-classified exception falls back to BM25; any other exception
propagates. -/
def retrieveDocuments (bm25Rank : List RDoc → String → Nat → List RDoc)
    (store : ChunkStore) (searchOutcome : SearchOutcome) (question : String) (k : Nat) :
    Except PyError (List (RDoc × Rat)) :=
  match searchOutcome with
  | SearchOutcome.results rs =>
      if !rs.isEmpty then Except.ok rs
      else Except.ok (retrieveWithBM25 bm25Rank store question k)
  | SearchOutcome.raises e =>
      if isEmbeddingAuthError e then Except.ok (retrieveWithBM25 bm25Rank store question k)
      else Except.error e

/-- C6: For every query and `k`, if the vector similarity search returns
zero results, or fails with a 401/403-class authorization error,
retrieval falls back to a term-frequency (BM25) ranking built over every
chunk currently in the Chunk Store and returns up to `k` results each
with score `0.0`; any other vector-index failure propagates to the
caller. -/
theorem c6_retrieval_fallback :
    (∀ (bm25Rank : List RDoc → String → Nat → List RDoc) (store : ChunkStore)
        (question : String) (k : Nat),
      retrieveDocuments bm25Rank store (SearchOutcome.results []) question k =
        Except.ok (retrieveWithBM25 bm25Rank store question k)) ∧
    (∀ (bm25Rank : List RDoc → String → Nat → List RDoc) (store : ChunkStore)
        (e : PyError) (question : String) (k : Nat), isEmbeddingAuthError e = true →
      retrieveDocuments bm25Rank store (SearchOutcome.raises e) question k =
        Except.ok (retrieveWithBM25 bm25Rank store question k)) ∧
    (∀ (bm25Rank : List RDoc → String → Nat → List RDoc) (store : ChunkStore)
        (e : PyError) (question : String) (k : Nat), isEmbeddingAuthError e = false →
      retrieveDocuments bm25Rank store (SearchOutcome.raises e) question k =
        Except.error e) ∧
    (∀ (bm25Rank : List RDoc → String → Nat → List RDoc) (store : ChunkStore)
        (question : String) (k : Nat),
      (∀ docs q kk, (∀ d ∈ bm25Rank docs q kk, d ∈ docs) ∧ (bm25Rank docs q kk).length ≤ kk) →
      (∀ r ∈ retrieveWithBM25 bm25Rank store question k,
        r.2 = 0 ∧ r.1 ∈ loadChunkDocuments store) ∧
      (retrieveWithBM25 bm25Rank store question k).length ≤ k) := by
  refine ⟨fun bm25Rank store question k => rfl,
    fun bm25Rank store e question k hauth => ?_,
    fun bm25Rank store e question k hauth => ?_,
    fun bm25Rank store question k hrank => ?_⟩
  · rw [retrieveDocuments, hauth]
    simp
  · rw [retrieveDocuments, hauth]
    simp
  · constructor
    · intro r hr
      rw [retrieveWithBM25] at hr
      by_cases hemp : (loadChunkDocuments store).isEmpty
      · rw [if_pos hemp] at hr
        cases hr
      · rw [if_neg hemp] at hr
        obtain ⟨d, hd, hdr⟩ := List.mem_map.mp hr
        refine ⟨by rw [← hdr], ?_⟩
        rw [← hdr]
        exact (hrank (loadChunkDocuments store) question k).1 d hd
    · rw [retrieveWithBM25]
      by_cases hemp : (loadChunkDocuments store).isEmpty
      · rw [if_pos hemp]
        simp
      · rw [if_neg hemp]
        rw [List.length_map]
        exact (hrank (loadChunkDocuments store) question k).2

/-- Witness for C6: with a take-`k` ranker over a two-chunk store and an
empty search result, the fallback returns chunk-store documents with
score `0.0`, at most `k` of them; a 403 propagates as fallback and a 500
propagates as an error. -/
theorem c6_retrieval_fallback_witness :
    isEmbeddingAuthError (PyError.apiStatusError 403) = true ∧
    isEmbeddingAuthError (PyError.apiStatusError 500) = false ∧
    retrieveDocuments (fun docs _ kk => docs.take kk)
        [("a", [⟨"x", "H", 0⟩, ⟨"y", "H", 1⟩])] (SearchOutcome.raises (PyError.apiStatusError 403))
        "query" 3 =
      Except.ok (retrieveWithBM25 (fun docs _ kk => docs.take kk)
        [("a", [⟨"x", "H", 0⟩, ⟨"y", "H", 1⟩])] "query" 3) ∧
    retrieveDocuments (fun docs _ kk => docs.take kk)
        [("a", [⟨"x", "H", 0⟩, ⟨"y", "H", 1⟩])] (SearchOutcome.raises (PyError.apiStatusError 500))
        "query" 3 =
      Except.error (PyError.apiStatusError 500) ∧
    ((∀ r ∈ retrieveWithBM25 (fun docs _ kk => docs.take kk)
        [("a", [⟨"x", "H", 0⟩, ⟨"y", "H", 1⟩])] "query" 3,
        r.2 = 0 ∧ r.1 ∈ loadChunkDocuments [("a", [⟨"x", "H", 0⟩, ⟨"y", "H", 1⟩])]) ∧
      (retrieveWithBM25 (fun docs _ kk => docs.take kk)
        [("a", [⟨"x", "H", 0⟩, ⟨"y", "H", 1⟩])] "query" 3).length ≤ 3) :=
  ⟨by decide, by decide,
   c6_retrieval_fallback.2.1 (fun docs _ kk => docs.take kk)
     [("a", [⟨"x", "H", 0⟩, ⟨"y", "H", 1⟩])] (PyError.apiStatusError 403) "query" 3 (by decide),
   c6_retrieval_fallback.2.2.1 (fun docs _ kk => docs.take kk)
     [("a", [⟨"x", "H", 0⟩, ⟨"y", "H", 1⟩])] (PyError.apiStatusError 500) "query" 3 (by decide),
   c6_retrieval_fallback.2.2.2 (fun docs _ kk => docs.take kk)
     [("a", [⟨"x", "H", 0⟩, ⟨"y", "H", 1⟩])] "query" 3
     (fun docs q kk => ⟨fun d hd => List.mem_of_mem_take hd, List.length_take_le kk docs⟩)⟩

/-! ## Chat streaming (`app/rag/chain.py` lines 77–124, `app/main.py`
lines 120–163)

The language model is an external collaborator: for each candidate model
name, an oracle `behavior` gives the chunk contents its stream yields (in
order) and whether the stream then raises instead of completing. -/

structure SourceItem where
  source : String
  score : Rat
  preview : String
deriving DecidableEq, Repr

inductive ChatEvent where
  | token (text : String)
  | sources (payload : List SourceItem)
  | completeText (text : String)
  | done
deriving DecidableEq, Repr

/-- The stream behavior of one candidate model: the chunk contents it
yields, then either normal completion or an exception. -/
structure CandidateRun where
  chunks : List String
  raisesAfter : Option PyError
deriving DecidableEq, Repr

structure StreamLoopResult where
  events : List ChatEvent
  fullText : String
  emittedTokens : Bool
  raised : Bool
deriving DecidableEq, Repr

/-- `document.page_content[:180].replace("\n", " ")` (chain.py line 90):
the first 180 characters with newlines replaced by spaces. -/
def pyPreview (s : String) : String :=
  ⟨(s.data.take 180).map (fun c => if c = '\n' then ' ' else c)⟩

/-- The `sources` payload assembled at chain.py lines 86–92. -/
def sourcesPayload (results : List (RDoc × Rat)) : List SourceItem :=
  results.map (fun r => ⟨r.1.source, r.2, pyPreview r.1.pageContent⟩)

/-- Lines 98–101: the candidate list is the requested model (defaulting
to the configured chat model), followed by the configured chat model when
different. -/
def modelCandidates (chatModel : Option String) (defaultModel : String) : List String :=
  let requestedModel := chatModel.getD defaultModel
  if requestedModel ≠ defaultModel then [requestedModel, defaultModel] else [requestedModel]

/-- The candidate loop of lines 103–120.  Per candidate: the non-empty
chunk contents are emitted as `token` events and appended to `full_text`
(`if token:` skips empty strings, `emitted_tokens` latches).  If the
stream raises and another candidate remains
(`is_retry_candidate = index < len(model_candidates) - 1`), the loop logs
and continues with the next candidate; if it raises on the last
candidate, the exception propagates (events already yielded stand).  If
the stream completes, the loop breaks when any tokens have been emitted
and otherwise falls through to the next candidate. -/
def streamLoop (behavior : String → CandidateRun) :
    List String → Bool → String → StreamLoopResult
  | [], emitted, full => ⟨[], full, emitted, false⟩
  | c :: rest, emitted, full =>
    let run := behavior c
    let toks := run.chunks.filter (fun t => !(t == ""))
    let emitted2 := emitted || !toks.isEmpty
    let full2 := toks.foldl (fun acc t => acc ++ t) full
    let evs := toks.map ChatEvent.token
    match run.raisesAfter with
    | some _ =>
      if rest ≠ [] then
        let r := streamLoop behavior rest emitted2 full2
        ⟨evs ++ r.events, r.fullText, r.emittedTokens, r.raised⟩
      else ⟨evs, full2, emitted2, true⟩
    | none =>
      if emitted2 then ⟨evs, full2, emitted2, false⟩
      else
        let r := streamLoop behavior rest emitted2 full2
        ⟨evs ++ r.events, r.fullText, r.emittedTokens, r.raised⟩

/-- `stream_chat_answer` (lines 77–124) after retrieval: the event list
the generator yields and whether it instead ends by raising.  On normal
completion the token events are followed by exactly one `sources` event
and one `complete_text` event carrying the accumulated `full_text`. -/
def streamChatAnswer (results : List (RDoc × Rat)) (behavior : String → CandidateRun)
    (chatModel : Option String) (defaultModel : String) : List ChatEvent × Bool :=
  let r := streamLoop behavior (modelCandidates chatModel defaultModel) false ""
  if r.raised then (r.events, true)
  else (r.events ++
    [ChatEvent.sources (sourcesPayload results), ChatEvent.completeText r.fullText], false)

/-- One step of the `/chat` handler's `event_stream` (main.py lines
124–139): `complete_text` is captured into `assistant_full_text` and not
forwarded; every other event is forwarded. -/
def chatForwardStep (acc : List ChatEvent × String) (e : ChatEvent) : List ChatEvent × String :=
  match e with
  | ChatEvent.completeText t => (acc.1, t)
  | ev => (acc.1 ++ [ev], acc.2)

/-- The `/chat` handler's successful path (main.py lines 124–161):
consume the generator's events, then append the trailing `done` event;
returns the forwarded events and the captured assistant text. -/
def chatEventStream (streamEvents : List ChatEvent) : List ChatEvent × String :=
  let r := streamEvents.foldl chatForwardStep ([], "")
  (r.1 ++ [ChatEvent.done], r.2)

/-- `full_text` accumulation: folding `+=` over the tokens appends their
concatenation. -/
def concatTokens : List String → String
  | [] => ""
  | t :: ts => t ++ concatTokens ts

theorem foldl_append_eq_concat :
    ∀ (toks : List String) (full : String),
      toks.foldl (fun acc t => acc ++ t) full = full ++ concatTokens toks := by
  intro toks
  induction toks with
  | nil => intro full; simp [concatTokens]
  | cons t ts ih =>
    intro full
    rw [List.foldl_cons, ih (full ++ t), concatTokens, String.append_assoc]

theorem concatTokens_append (a b : List String) :
    concatTokens (a ++ b) = concatTokens a ++ concatTokens b := by
  induction a with
  | nil => simp [concatTokens]
  | cons x xs ih => rw [List.cons_append, concatTokens, concatTokens, ih, String.append_assoc]

theorem streamLoop_events (behavior : String → CandidateRun) :
    ∀ (cands : List String) (emitted : Bool) (full : String),
      ∃ toks : List String,
        (streamLoop behavior cands emitted full).events = toks.map ChatEvent.token ∧
        (streamLoop behavior cands emitted full).fullText = full ++ concatTokens toks := by
  intro cands
  induction cands with
  | nil =>
    intro emitted full
    exact ⟨[], rfl, by simp [streamLoop, concatTokens]⟩
  | cons c rest ih =>
    intro emitted full
    rw [streamLoop]
    cases hra : (behavior c).raisesAfter with
    | some e =>
      by_cases hrest : rest = []
      · subst hrest
        simp only [ne_eq, not_true_eq_false, if_false, reduceCtorEq]
        refine ⟨(behavior c).chunks.filter (fun t => !(t == "")), rfl, ?_⟩
        exact foldl_append_eq_concat _ full
      · simp only [ne_eq, hrest, not_false_eq_true, if_true]
        obtain ⟨toks', h1, h2⟩ := ih (emitted || !((behavior c).chunks.filter
          (fun t => !(t == ""))).isEmpty)
          (((behavior c).chunks.filter (fun t => !(t == ""))).foldl
            (fun acc t => acc ++ t) full)
        refine ⟨(behavior c).chunks.filter (fun t => !(t == "")) ++ toks', ?_, ?_⟩
        · simp only [List.map_append, h1]
        · rw [h2, foldl_append_eq_concat _ full, concatTokens_append, String.append_assoc]
    | none =>
      by_cases hem : (emitted || !((behavior c).chunks.filter (fun t => !(t == ""))).isEmpty) =
          true
      · simp only [hem, if_true]
        refine ⟨(behavior c).chunks.filter (fun t => !(t == "")), rfl, ?_⟩
        exact foldl_append_eq_concat _ full
      · have hem' : (emitted || !((behavior c).chunks.filter
            (fun t => !(t == ""))).isEmpty) = false := by
          simpa using hem
        simp only [hem', Bool.false_eq_true, if_false]
        obtain ⟨toks', h1, h2⟩ := ih false
          (((behavior c).chunks.filter (fun t => !(t == ""))).foldl
            (fun acc t => acc ++ t) full)
        refine ⟨(behavior c).chunks.filter (fun t => !(t == "")) ++ toks', ?_, ?_⟩
        · simp only [List.map_append, h1]
        · rw [h2, foldl_append_eq_concat _ full, concatTokens_append, String.append_assoc]

theorem chatFold_tokens :
    ∀ (toks : List String) (acc : List ChatEvent × String),
      (toks.map ChatEvent.token).foldl chatForwardStep acc =
        (acc.1 ++ toks.map ChatEvent.token, acc.2) := by
  intro toks
  induction toks with
  | nil => intro acc; simp
  | cons t ts ih =>
    intro acc
    rw [List.map_cons, List.foldl_cons, ih]
    show ((acc.1 ++ [ChatEvent.token t]) ++ ts.map ChatEvent.token, acc.2) = _
    rw [List.append_assoc]
    rfl

/-- C5: For every chat request that completes without error, the observed
event sequence — the generator's events followed by the `done` event the
`/chat` handler appends — is: zero or more `token` events, then exactly
one `sources` event, then exactly one `complete_text` event carrying the
concatenation of all emitted token texts, then exactly one trailing
`done` event; and the handler forwards exactly the token and sources
events, captures the complete text, and appends `done`. -/
theorem c5_chat_event_order (results : List (RDoc × Rat)) (behavior : String → CandidateRun)
    (chatModel : Option String) (defaultModel : String)
    (h : (streamChatAnswer results behavior chatModel defaultModel).2 = false) :
    ∃ toks : List String,
      (streamChatAnswer results behavior chatModel defaultModel).1 ++ [ChatEvent.done] =
        toks.map ChatEvent.token ++
          [ChatEvent.sources (sourcesPayload results),
           ChatEvent.completeText (concatTokens toks), ChatEvent.done] ∧
      chatEventStream (streamChatAnswer results behavior chatModel defaultModel).1 =
        (toks.map ChatEvent.token ++
          [ChatEvent.sources (sourcesPayload results), ChatEvent.done],
         concatTokens toks) := by
  rw [streamChatAnswer] at h ⊢
  by_cases hr : (streamLoop behavior (modelCandidates chatModel defaultModel) false "").raised
  · rw [if_pos hr] at h
    cases h
  · rw [if_neg hr] at h ⊢
    obtain ⟨toks, h1, h2⟩ :=
      streamLoop_events behavior (modelCandidates chatModel defaultModel) false ""
    have h2' : (streamLoop behavior (modelCandidates chatModel defaultModel) false "").fullText =
        concatTokens toks := by
      rw [h2]
      simp
    refine ⟨toks, ?_, ?_⟩
    · show ((streamLoop behavior (modelCandidates chatModel defaultModel) false "").events ++
          [ChatEvent.sources (sourcesPayload results),
           ChatEvent.completeText
             (streamLoop behavior (modelCandidates chatModel defaultModel) false "").fullText]) ++
          [ChatEvent.done] = _
      rw [h1, h2', List.append_assoc]
      rfl
    · show chatEventStream
          ((streamLoop behavior (modelCandidates chatModel defaultModel) false "").events ++
            [ChatEvent.sources (sourcesPayload results),
             ChatEvent.completeText
               (streamLoop behavior (modelCandidates chatModel defaultModel) false "").fullText]) =
          _
      rw [h1, h2', chatEventStream, List.foldl_append, chatFold_tokens toks ([], "")]
      show ((toks.map ChatEvent.token ++ [ChatEvent.sources (sourcesPayload results)]) ++
          [ChatEvent.done], concatTokens toks) = _
      rw [List.append_assoc]
      rfl

/-- Witness for C5: a single candidate streaming two chunks (one empty,
filtered out) and completing; the observed sequence is
token, sources, complete_text, done. -/
theorem c5_chat_event_order_witness :
    (streamChatAnswer [] (fun _ => ⟨["hi", ""], none⟩) none "m0").2 = false ∧
    (∃ toks : List String,
      (streamChatAnswer [] (fun _ => ⟨["hi", ""], none⟩) none "m0").1 ++ [ChatEvent.done] =
        toks.map ChatEvent.token ++
          [ChatEvent.sources (sourcesPayload []),
           ChatEvent.completeText (concatTokens toks), ChatEvent.done] ∧
      chatEventStream (streamChatAnswer [] (fun _ => ⟨["hi", ""], none⟩) none "m0").1 =
        (toks.map ChatEvent.token ++ [ChatEvent.sources (sourcesPayload []), ChatEvent.done],
         concatTokens toks)) :=
  ⟨by decide,
   c5_chat_event_order [] (fun _ => ⟨["hi", ""], none⟩) none "m0" (by decide)⟩

/-! ## C4: the fallback retry after a mid-stream failure -/

/-- C4 counterexample: the requested model "m1" yields token "a" and then
its stream raises; a further candidate ("m0", the configured default)
remains, so the `except` branch at chain.py lines 115–120 retries it —
`emitted_tokens` is not consulted there.  The run completes without
propagating the exception, the second candidate is tried after partial
output, and its token "b" is appended after "a" in both the stream and
`full_text`.  This refutes the claim that a fallback happens only when
the failing candidate produced zero tokens. -/
theorem c4_counterexample :
    streamChatAnswer []
        (fun m => if m = "m1" then ⟨["a"], some (PyError.otherError none)⟩ else ⟨["b"], none⟩)
        (some "m1") "m0" =
      ([ChatEvent.token "a", ChatEvent.token "b", ChatEvent.sources [],
        ChatEvent.completeText "ab"], false) := by
  decide

/-- C4 amended: when a candidate's stream raises, the fallback to the
next candidate happens whenever a further candidate remains — regardless
of whether the failing candidate had already emitted tokens
(`emitted_tokens` is not consulted in the `except` branch at lines
115–120); only when the last candidate's stream raises does the
exception propagate, and in both cases the token events the failing
candidate already yielded remain in the emitted stream, prefixed to
whatever follows. -/
theorem c4_amended_retry_whenever_candidate_remains
    (behavior : String → CandidateRun) (c : String) (rest : List String)
    (emitted : Bool) (full : String) (e : PyError)
    (hfail : (behavior c).raisesAfter = some e) :
    (rest ≠ [] →
      streamLoop behavior (c :: rest) emitted full =
        (let toks := (behavior c).chunks.filter (fun t => !(t == ""))
         let r := streamLoop behavior rest (emitted || !toks.isEmpty)
           (toks.foldl (fun acc t => acc ++ t) full)
         ⟨toks.map ChatEvent.token ++ r.events, r.fullText, r.emittedTokens, r.raised⟩)) ∧
    (rest = [] →
      streamLoop behavior (c :: rest) emitted full =
        (let toks := (behavior c).chunks.filter (fun t => !(t == ""))
         ⟨toks.map ChatEvent.token, toks.foldl (fun acc t => acc ++ t) full,
          emitted || !toks.isEmpty, true⟩)) := by
  constructor
  · intro hrest
    rw [streamLoop, hfail]
    simp only [ne_eq, hrest, not_false_eq_true, if_true]
  · intro hrest
    subst hrest
    rw [streamLoop, hfail]
    simp only [ne_eq, not_true_eq_false, if_false, reduceCtorEq]

/-- Witness for C4's amended claim: the failing first candidate "m1"
falls back to "m0" even though it emitted token "a"; and when "m1" is
the last candidate, the loop result keeps the already-yielded token
event and reports the raise. -/
theorem c4_amended_retry_whenever_candidate_remains_witness :
    ((fun m => if m = "m1" then
        (⟨["a"], some (PyError.otherError none)⟩ : CandidateRun)
      else ⟨["b"], none⟩) "m1").raisesAfter = some (PyError.otherError none) ∧
    (["m0"] ≠ [] →
      streamLoop
          (fun m => if m = "m1" then
            (⟨["a"], some (PyError.otherError none)⟩ : CandidateRun)
          else ⟨["b"], none⟩) ["m1", "m0"] false "" =
        (let toks := (((fun m => if m = "m1" then
            (⟨["a"], some (PyError.otherError none)⟩ : CandidateRun)
          else ⟨["b"], none⟩) "m1").chunks.filter (fun t => !(t == "")))
         let r := streamLoop
           (fun m => if m = "m1" then
             (⟨["a"], some (PyError.otherError none)⟩ : CandidateRun)
           else ⟨["b"], none⟩) ["m0"] (false || !toks.isEmpty)
           (toks.foldl (fun acc t => acc ++ t) "")
         ⟨toks.map ChatEvent.token ++ r.events, r.fullText, r.emittedTokens, r.raised⟩)) ∧
    (([] : List String) = [] →
      streamLoop
          (fun m => if m = "m1" then
            (⟨["a"], some (PyError.otherError none)⟩ : CandidateRun)
          else ⟨["b"], none⟩) ["m1"] false "" =
        (let toks := (((fun m => if m = "m1" then
            (⟨["a"], some (PyError.otherError none)⟩ : CandidateRun)
          else ⟨["b"], none⟩) "m1").chunks.filter (fun t => !(t == "")))
         ⟨toks.map ChatEvent.token, toks.foldl (fun acc t => acc ++ t) "",
          false || !toks.isEmpty, true⟩)) :=
  ⟨by decide,
   (c4_amended_retry_whenever_candidate_remains
     (fun m => if m = "m1" then
       (⟨["a"], some (PyError.otherError none)⟩ : CandidateRun)
     else ⟨["b"], none⟩) "m1" ["m0"] false "" (PyError.otherError none) (by decide)).1,
   (c4_amended_retry_whenever_candidate_remains
     (fun m => if m = "m1" then
       (⟨["a"], some (PyError.otherError none)⟩ : CandidateRun)
     else ⟨["b"], none⟩) "m1" [] false "" (PyError.otherError none) (by decide)).2⟩

/-! ## C7: chunk identifiers are deterministic and content-derived

`hashlib.sha256` is an external collaborator; its collision-freeness on
the inputs at hand ("changing one byte changes the content hash") enters
as the hypothesis `hashBytes b₁ ≠ hashBytes b₂` (its hexdigests all have
one length, here the hypothesis on lengths). -/

theorem docId_data (p h t : String) :
    (p ++ ":" ++ h ++ ":" ++ t).data =
      p.data ++ [':'] ++ h.data ++ [':'] ++ t.data := by
  rw [String.data_append, String.data_append, String.data_append, String.data_append]

theorem docId_extract (p h t : String) :
    (((p ++ ":" ++ h ++ ":" ++ t).data).drop (p.data.length + 1)).take h.data.length =
      h.data := by
  rw [docId_data]
  have h1 : p.data ++ [':'] ++ h.data ++ [':'] ++ t.data =
      p.data ++ ((':' :: h.data) ++ (':' :: t.data)) := by
    simp
  rw [h1, List.drop_append_eq_append_drop]
  have h2 : p.data.drop (p.data.length + 1) = [] := by
    apply List.drop_eq_nil_of_le
    omega
  have h3 : p.data.length + 1 - p.data.length = 1 := by omega
  rw [h2, h3, List.nil_append]
  show List.take h.data.length (h.data ++ ':' :: t.data) = h.data
  exact List.take_left h.data (':' :: t.data)

theorem chunkDocIds_mem (relPath fileHash id : String) (n : Nat)
    (h : id ∈ chunkDocIds relPath fileHash n) :
    ∃ i, i < n ∧ id = relPath ++ ":" ++ fileHash ++ ":" ++ toString i := by
  rw [chunkDocIds] at h
  obtain ⟨i, hi, hid⟩ := List.mem_map.mp h
  exact ⟨i, List.mem_range.mp hi, hid.symm⟩

/-- C7: Chunk identifiers are deterministic and content-derived: the
identifier of chunk `i` is `path:content_hash:i`; re-ingesting a file
with identical bytes yields identical identifiers; and whenever the
content hash changes (as `hashlib.sha256` guarantees for any change to
the file's bytes, its digests having a fixed hex length), every
identifier derived for that file changes. -/
theorem c7_chunk_ids_content_derived :
    (∀ (relPath fileHash : String) (n i : Nat), i < n →
      (chunkDocIds relPath fileHash n)[i]? =
        some (relPath ++ ":" ++ fileHash ++ ":" ++ toString i)) ∧
    (∀ (hashBytes : List Nat → String) (relPath : String) (b₁ b₂ : List Nat) (n : Nat),
      b₁ = b₂ →
      chunkDocIds relPath (hashBytes b₁) n = chunkDocIds relPath (hashBytes b₂) n) ∧
    (∀ (hashBytes : List Nat → String) (relPath : String) (b₁ b₂ : List Nat) (n m : Nat),
      (hashBytes b₁).length = (hashBytes b₂).length →
      hashBytes b₁ ≠ hashBytes b₂ →
      ∀ id₁ ∈ chunkDocIds relPath (hashBytes b₁) n,
        ∀ id₂ ∈ chunkDocIds relPath (hashBytes b₂) m, id₁ ≠ id₂) := by
  refine ⟨?_, ?_, ?_⟩
  · intro relPath fileHash n i hi
    rw [chunkDocIds]
    rw [List.getElem?_map]
    simp [List.getElem?_range, hi]
  · intro hashBytes relPath b₁ b₂ n hb
    rw [hb]
  · intro hashBytes relPath b₁ b₂ n m hlen hne id₁ h₁ id₂ h₂ heq
    obtain ⟨i, _, hid₁⟩ := chunkDocIds_mem relPath (hashBytes b₁) id₁ n h₁
    obtain ⟨j, _, hid₂⟩ := chunkDocIds_mem relPath (hashBytes b₂) id₂ m h₂
    rw [hid₁, hid₂] at heq
    have hdata := congrArg
      (fun s => ((s.data).drop (relPath.data.length + 1)).take (hashBytes b₁).data.length)
      heq
    simp only at hdata
    rw [docId_extract relPath (hashBytes b₁) (toString i)] at hdata
    have hlen' : (hashBytes b₁).data.length = (hashBytes b₂).data.length := hlen
    rw [hlen', docId_extract relPath (hashBytes b₂) (toString j)] at hdata
    exact hne (String.ext hdata)

/-- Witness for C7: two one-byte contents with distinct equal-length
hashes; both identifiers derived for the file differ, and an in-range
index has the stated identifier. -/
theorem c7_chunk_ids_content_derived_witness :
    ((fun b => if b = [0] then "aa" else "ab") [0] : String).length =
      ((fun b => if b = [0] then "aa" else "ab") [1] : String).length ∧
    (chunkDocIds "p" "aa" 1)[0]? = some ("p" ++ ":" ++ "aa" ++ ":" ++ toString 0) ∧
    (∀ id₁ ∈ chunkDocIds "p" ((fun b => if b = [0] then "aa" else "ab") [0]) 1,
      ∀ id₂ ∈ chunkDocIds "p" ((fun b => if b = [0] then "aa" else "ab") [1]) 1,
        id₁ ≠ id₂) :=
  ⟨by decide,
   c7_chunk_ids_content_derived.1 "p" "aa" 1 0 (by decide),
   c7_chunk_ids_content_derived.2.2 (fun b => if b = [0] then "aa" else "ab") "p" [0] [1] 1 1
     (by decide) (by decide)⟩
